import Mathlib

/-!
PPWSim: onion routing in a wireless sensor network

A shallow embedding of the segment codec (`Wsn_node::SendSegment`,
`Wsn_node::RecvSeg`), the watchdog (`Wsn_node::CheckSentOnion`) and the per-hop
peeling engine (`SensorNode::ReceivePacket`, `SensorNode::ProcessOnionHead`,
`SensorNode::ProcessOnionBody`, `SensorNode::DeserializeIpv4ToInt`), followed by
the properties proved about them.

Conventions of the embedding

* Machine integers are `Nat` or `Int` with the reduction that the C++ type
  performs written out: `toInt32` for a conversion to `int`, `% 2 ^ 32` for
  `uint32_t` arithmetic, `% 2 ^ 64` for `size_t` arithmetic.
* Calls on the collaborators that the node only talks to (socket, simulator,
  output manager, validator, trace sources) are recorded as `Event`s, in program
  order.  A run that reaches undefined behaviour (division by zero) or an
  uncaught exception stops there: its state is `none` and the events up to that
  point are kept.
* Answers of the collaborators (validator, key manager, serialization) are
  parameters of the model.
-/

namespace PPWSim

/-! ## Machine arithmetic -/

/-- One octet (`uint8_t`, one `char` of a `std::string`). -/
abbrev Byte := Fin 256

/-- Conversion of an integer value to the 32-bit `int` (two's complement wrap). -/
def toInt32 (n : Int) : Int := (n + 2 ^ 31) % 2 ^ 32 - 2 ^ 31

/-- Conversion of an `int` to `size_t` (64-bit unsigned). -/
def toSizeT (n : Int) : Nat := (n % 2 ^ 64).toNat

/-- The 32-bit pattern of an `int`, as an unsigned value. -/
def toUInt32 (n : Int) : Nat := (n % 2 ^ 32).toNat

/-- Subtraction on 32-bit values: `a - b` reduced modulo `2 ^ 32`. -/
def sub32 (a b : Nat) : Nat := (a % 2 ^ 32 + 2 ^ 32 - b % 2 ^ 32) % 2 ^ 32

/-! ## Address conversion -/

/-- `SensorNode::DeserializeIpv4ToInt`: the accumulator `ip` is a `uint32_t`;
every `+=` and every `<< 8` is reduced modulo `2 ^ 32`. -/
def DeserializeIpv4ToInt (buff : Fin 4 → Byte) : Nat :=
  let ip := 0
  let ip := (ip + (buff 0).val) % 2 ^ 32
  let ip := (ip <<< 8) % 2 ^ 32
  let ip := (ip + (buff 1).val) % 2 ^ 32
  let ip := (ip <<< 8) % 2 ^ 32
  let ip := (ip + (buff 2).val) % 2 ^ 32
  let ip := (ip <<< 8) % 2 ^ 32
  let ip := (ip + (buff 3).val) % 2 ^ 32
  ip

/-- The same accumulation carried out on unbounded naturals (no reduction). -/
def accumulateBytes (buff : Fin 4 → Byte) : Nat :=
  (((0 + (buff 0).val) <<< 8 + (buff 1).val) <<< 8 + (buff 2).val) <<< 8 + (buff 3).val

/-! ## Packets and the segment tag -/

/-- An ns-3 `Packet` as the segment codec sees it: its bytes, and the value of
the `SegmentNum` byte tag that `FindFirstMatchingByteTag` finds on it, if any. -/
structure Packet where
  bytes : List Byte
  segNum : Option Nat
deriving DecidableEq, Repr

/-- `Create<Packet> ()`: no bytes, no tag. -/
def Packet.Create : Packet := ⟨[], none⟩

/-- `Packet::GetSize`, a `uint32_t`. -/
def Packet.GetSize (p : Packet) : Nat := p.bytes.length % 2 ^ 32

/-- `Packet::AddAtEnd`: the bytes of `p` follow the bytes already there; byte
tags travel with their bytes, so the first tag found is the one of the front
part when it has one. -/
def Packet.AddAtEnd (self p : Packet) : Packet :=
  match self.segNum with
  | some t => ⟨self.bytes ++ p.bytes, some t⟩
  | none => ⟨self.bytes ++ p.bytes, p.segNum⟩

/-- `Packet::AddByteTag`: the tag covers every byte of the packet; a tag that
was already there is still found first. -/
def Packet.AddByteTag (self : Packet) (t : Nat) : Packet :=
  match self.segNum with
  | some t0 => ⟨self.bytes, some t0⟩
  | none => ⟨self.bytes, some t⟩

/-- Modelled from the spec: the class `SegmentNum` (its header is not among the
sources) is the Segment Tag "carrying the total byte length of the full logical
message".  `SendSegment` builds it from the `int pack_size`; the value is kept
as a 32-bit pattern. -/
def SegmentNum (seg : Int) : Nat := toUInt32 seg

/-! ## Collaborators and observable events -/

/-- Calls on the collaborators, in program order. -/
inductive Event where
  /-- entry of `Wsn_node::SendSegment (remote, packet, b_onion)` -/
  | sendSegment (ip port : Nat) (packet : Packet) (b_onion : Bool)
  /-- `socket->Connect (remote)` on a fresh socket -/
  | connect (ip port : Nat)
  /-- `socket->Send (packet)` -/
  | send (packet : Packet)
  /-- `socket->Close ()` -/
  | close
  /-- `Simulator::Schedule (Seconds (delay), &Wsn_node::CheckSentOnion, this, count)` -/
  | schedule (delay : Nat) (count : Int)
  /-- `m_outputManager->AbortOnion (time)` -/
  | abortOnion (time : Nat)
  /-- `m_outputManager->OnionRoutingRecv (time)` -/
  | onionRoutingRecv (time : Nat)
  /-- `m_onionValidator->OnionReceived ()` -/
  | onionReceived
  /-- `m_outputManager->OnionRoutingSend (src, dst, size, headSize, bodySize, time)` -/
  | onionRoutingSend (src dst size headSize bodySize time : Nat)
  /-- `NotifyRx (packet)` -/
  | notifyRx (packet : Packet)
  /-- `NotifyTx (packet)` -/
  | notifyTx (packet : Packet)
  /-- the diagnostic `NS_LOG_INFO` of a ghost onion -/
  | logGhost (onionId address time : Nat)
deriving DecidableEq, Repr

/-- The answers of the onion validator (`m_onionValidator`) to the queries of one
callback. -/
structure OnionValidator where
  /-- `GetOnionSeq ()`: the onion sequence number currently expected -/
  GetOnionSeq : Nat
  /-- `OnionHopCount ()`: the hop count reported when an onion is sent -/
  OnionHopCount : Int
  /-- `CheckOnionReceived (count)`: whether `count` hops were completed -/
  CheckOnionReceived : Int → Bool

/-- The peeled layer `orLayer`: the four bytes of the next hop and the inner
layer (`innerLayerLen` bytes of `innerLayer`). -/
structure orLayer where
  nextHopIP : Fin 4 → Byte
  innerLayer : List Byte

/-- The key manager (`m_onionManager`): `PeelOnion` with the node's own keys. -/
structure OnionManager where
  PeelOnion : List Byte → orLayer

/-- Modelled from the spec: `protomessage::ProtoPacket_OnionHead` (the protobuf
description is not among the sources), the head of the envelope with its onion id,
its onion message and an optional padding. -/
structure OnionHead where
  onionid : Nat
  onion_message : List Byte
  padding : Option (List Byte)
deriving DecidableEq, Repr

/-- Modelled from the spec: `protomessage::ProtoPacket_OnionBody`, the body of the
envelope with its optional aggregate. -/
structure OnionBody where
  aggregatedvalue : Option Int
deriving DecidableEq, Repr

/-- Modelled from the spec: `protomessage::ProtoPacket` with its onion head and
onion body. -/
structure ProtoPacket where
  o_head : OnionHead
  o_body : OnionBody
deriving DecidableEq, Repr

/-- The `SerializationWrapper` header and the protobuf encoding behind it. -/
structure Serialization where
  /-- `p->RemoveHeader (sw); sw.GetData (&onion)`: the message read from the bytes -/
  GetData : List Byte → ProtoPacket
  /-- the bytes left in the packet once the header is removed -/
  afterHeader : List Byte → List Byte
  /-- `sw.SetData (onion); np->AddHeader (sw)`: the bytes of the new packet -/
  SetData : ProtoPacket → List Byte
  /-- `ByteSizeLong ()` of a head -/
  headByteSize : OnionHead → Nat
  /-- `ByteSizeLong ()` of a body -/
  bodyByteSize : OnionBody → Nat

/-- The outcome of a callback: the collaborator calls made, and the state
reached, `none` when the run stopped on undefined behaviour or an uncaught
exception. -/
structure Run (σ : Type) where
  events : List Event
  state : Option σ

/-! ## Node state -/

/-- Modelled from the spec: the fields of `Wsn_node` that the modelled functions
read or write (the class declaration is not among the sources).  `f_mss`, `m_port`
and `m_onionTimeout` are the `uint16_t` attributes of `GetTypeId`; addresses are
the 32-bit values of `Ipv4Address::Get`; the remaining byte count `f_segmentSize`
is kept as a 32-bit pattern. -/
structure Wsn_node where
  m_address : Nat
  m_port : Nat
  f_mss : Nat
  m_onionTimeout : Nat
  f_pendingPacket : Option Packet
  f_segmentSize : Nat
  f_receivingAddress : Nat
  o_hopCount : Int
  o_sequenceNum : Nat
deriving DecidableEq, Repr

/-- Modelled from the spec: `SensorNode`, a `Wsn_node` with a sink address and a
locally sensed value (the class declaration is not among the sources). -/
structure SensorNode extends Wsn_node where
  m_sinkAddress : Nat
  m_sensorValue : Int
deriving DecidableEq, Repr

/-- `Ipv4Address::GetAny ()`, the address 0.0.0.0. -/
def Ipv4Any : Nat := 0

/-! ## Segment codec -/

/-- `Wsn_node::SendSegment`.  `pack_size` is an `int`; `pack_size / f_mss` is
the truncating `int` division, undefined for `f_mss = 0`: the run stops there,
after the socket was created and connected and before anything is scheduled or
sent. -/
def SendSegment (self : Wsn_node) (v : OnionValidator) (remote : Nat × Nat)
    (packet : Packet) (b_onion : Bool) : Run Wsn_node :=
  let entry := [Event.sendSegment remote.1 remote.2 packet b_onion,
                Event.connect remote.1 remote.2]
  let pack_size : Int := toInt32 packet.GetSize
  if self.f_mss = 0 then
    ⟨entry, none⟩
  else
    let seg_num : Int := Int.tdiv pack_size self.f_mss
    let self1 : Wsn_node :=
      if b_onion then { self with o_hopCount := v.OnionHopCount } else self
    let armed : List Event :=
      if b_onion then [Event.schedule self.m_onionTimeout self1.o_hopCount] else []
    if seg_num = 0 then
      ⟨entry ++ armed ++ [Event.send packet], some self1⟩
    else
      ⟨entry ++ armed ++ [Event.send (packet.AddByteTag (SegmentNum pack_size))], some self1⟩

/-- What `RecvSeg` hands back: the node afterwards, the returned packet
(`none` for `NULL`) and the socket calls made. -/
structure RecvResult where
  node : Wsn_node
  packet : Option Packet
  events : List Event
deriving DecidableEq, Repr

/-- `Wsn_node::RecvSeg (socket, p, from)`; `sender` is
`from_address.GetIpv4 ().Get ()`.  The remaining byte count is decremented in
32-bit arithmetic. -/
def RecvSeg (self : Wsn_node) (p : Packet) (sender : Nat) : RecvResult :=
  match p.segNum with
  | none => ⟨self, some p, [Event.close]⟩
  | some s_num =>
    let self1 : Wsn_node :=
      if self.f_pendingPacket = none ∨ sender ≠ self.f_receivingAddress then
        { self with f_receivingAddress := sender
                    f_pendingPacket := some Packet.Create
                    f_segmentSize := s_num }
      else self
    let pending : Packet :=
      match self1.f_pendingPacket with
      | some q => q.AddAtEnd p
      | none => Packet.Create.AddAtEnd p
    let size := sub32 self1.f_segmentSize p.GetSize
    if size = 0 then
      ⟨{ self1 with f_receivingAddress := Ipv4Any
                    f_pendingPacket := none
                    f_segmentSize := size }, some pending, [Event.close]⟩
    else
      ⟨{ self1 with f_pendingPacket := some pending
                    f_segmentSize := size }, none, []⟩

/-- `Wsn_node::RecvSegment (socket)`: the chunk and its sender are what
`socket->RecvFrom (from)` delivers. -/
def RecvSegment (self : Wsn_node) (chunk : Packet) (sender : Nat) : RecvResult :=
  RecvSeg self chunk sender

/-! ## Watchdog -/

/-- `Wsn_node::CheckSentOnion (count)`, run at simulation time `now`. -/
def CheckSentOnion (v : OnionValidator) (now : Nat) (count : Int) : List Event :=
  if !v.CheckOnionReceived count then [Event.abortOnion now] else []

/-- A `CheckSentOnion (count)` event in the simulator queue. -/
structure ScheduledCheck where
  time : Nat
  count : Int
deriving DecidableEq, Repr

/-- The simulator queue entries that the calls of `Simulator::Schedule` in a
callback running at time `now` create: a delay `d` fires at `now + d`. -/
def scheduledChecks (now : Nat) : List Event → List ScheduledCheck
  | [] => []
  | Event.schedule d c :: es => ⟨now + d, c⟩ :: scheduledChecks now es
  | _ :: es => scheduledChecks now es

/-- The simulator runs a queued check at its time: `Simulator::Now ()` is then
the scheduled time. -/
def ScheduledCheck.fire (c : ScheduledCheck) (v : OnionValidator) : List Event :=
  CheckSentOnion v c.time c.count

/-! ## Transport between `SendSegment` and `RecvSeg` -/

/-- The packets handed to `socket->Send` in a run. -/
def sentPackets : List Event → List Packet
  | [] => []
  | Event.send p :: es => p :: sentPackets es
  | _ :: es => sentPackets es

/-- Consecutive pieces of at most `mss` bytes; a write that fits is one piece.
`fuel` bounds the number of cuts. -/
def cutBytes (mss : Nat) : Nat → List Byte → List (List Byte)
  | 0, bs => [bs]
  | fuel + 1, bs =>
    if bs.length ≤ mss then [bs] else bs.take mss :: cutBytes mss fuel (bs.drop mss)

/-- The transport's own segmentation of one write, driven by `mss` (spec 4.1):
the written bytes in order, in pieces of `mss` bytes with a shorter last one,
every piece carrying the byte tag of the written packet, if it has one. -/
def transportSegments (mss : Nat) (p : Packet) : List Packet :=
  (cutBytes mss p.bytes.length p.bytes).map (fun bs => ⟨bs, p.segNum⟩)

/-- The chunks of one peer are read one by one, each by a call of `RecvSeg`;
the result is the node afterwards and what each call returned. -/
def feed (self : Wsn_node) (sender : Nat) : List Packet → Wsn_node × List (Option Packet)
  | [] => (self, [])
  | c :: cs =>
    let r := RecvSeg self c sender
    let rest := feed r.node sender cs
    (rest.1, r.packet :: rest.2)

/-- The bytes of a sequence of chunks, in order. -/
def allBytes (cs : List Packet) : List Byte := (cs.map Packet.bytes).flatten

/-- The sum of the sizes of a sequence of chunks. -/
def totalSize (cs : List Packet) : Nat := (cs.map (fun c => c.bytes.length)).sum

/-- The reassembly buffer as `RecvSeg` leaves it when a message is complete: no
pending packet, the any-address as receiving address, nothing remaining. -/
def cleared (self : Wsn_node) : Wsn_node :=
  { self with f_receivingAddress := Ipv4Any, f_pendingPacket := none, f_segmentSize := 0 }

/-- Every packet written by the sender is segmented by the transport and read
chunk by chunk at the receiver; the result lists what each `RecvSeg` returned. -/
def deliver (mss : Nat) (rcv : Wsn_node) (peer : Nat) : List Packet → List (Option Packet)
  | [] => []
  | pkt :: rest =>
    let r := feed rcv peer (transportSegments mss pkt)
    r.2 ++ deliver mss r.1 peer rest

/-- The message `m` is sent with `SendSegment` by `snd`, under its maximum segment
size, and what it writes is read with `RecvSeg` by `rcv`, from the peer `peer`. -/
def roundTrip (snd : Wsn_node) (v : OnionValidator) (remote : Nat × Nat) (b_onion : Bool)
    (rcv : Wsn_node) (peer : Nat) (m : List Byte) : List (Option Packet) :=
  deliver snd.f_mss rcv peer (sentPackets (SendSegment snd v remote ⟨m, none⟩ b_onion).events)

/-! ## Per-hop peeling and forwarding -/

/-- The largest length a `std::string` accepts (`max_size ()`, at most
`2 ^ 63 - 1` on the 64-bit implementations); the constructor throws
`std::length_error` beyond it. -/
def stringMaxSize : Nat := 2 ^ 63 - 1

/-- The character `'0'` used to fill the padding. -/
def paddingChar : Byte := 48

/-- `SensorNode::ProcessOnionHead`: returns the next hop address and the head as
it is left, or `none` when the construction of the padding string throws.
`outer_layer_len` is an `int`; `outer_layer_len - onion.length ()` is computed
in `size_t`. -/
def ProcessOnionHead (om : OnionManager) (onionHead : OnionHead) : Option (Nat × OnionHead) :=
  let onion := onionHead.onion_message
  let outer_layer_len : Int := toInt32 onion.length
  let outer_layer_len : Int :=
    match onionHead.padding with
    | some padding => toInt32 (toSizeT outer_layer_len + padding.length)
    | none => outer_layer_len
  let onionLayer := om.PeelOnion onion
  let ip := DeserializeIpv4ToInt onionLayer.nextHopIP
  let onion := onionLayer.innerLayer
  let onionHead : OnionHead := { onionHead with onion_message := onion }
  match onionHead.padding with
  | some _ =>
    let n := (toSizeT outer_layer_len + 2 ^ 64 - onion.length % 2 ^ 64) % 2 ^ 64
    if n ≤ stringMaxSize then
      some (ip, { onionHead with padding := some (List.replicate n paddingChar) })
    else none
  | none => some (ip, onionHead)

/-- `SensorNode::ProcessOnionBody`: `value` is an `int`, and so is the sum
stored back. -/
def ProcessOnionBody (m_sensorValue : Int) (onionBody : OnionBody) : OnionBody :=
  match onionBody.aggregatedvalue with
  | some a =>
    let value : Int := toInt32 a
    let value : Int := toInt32 (value + m_sensorValue)
    { onionBody with aggregatedvalue := some value }
  | none => onionBody

/-- `SensorNode::ReceivePacket`, the read callback: `chunk` and `sender` are
what the socket delivers, `now` is `Simulator::Now ()`. -/
def ReceivePacket (self : SensorNode) (v : OnionValidator) (om : OnionManager)
    (sw : Serialization) (now : Nat) (chunk : Packet) (sender : Nat) : Run SensorNode :=
  let r := RecvSegment self.toWsn_node chunk sender
  let self1 : SensorNode := { self with toWsn_node := r.node }
  match r.packet with
  | none => ⟨r.events, some self1⟩
  | some p =>
    let onion := sw.GetData p.bytes
    let p1 : Packet := { p with bytes := sw.afterHeader p.bytes }
    let self2 : SensorNode := { self1 with o_sequenceNum := onion.o_head.onionid }
    if self2.o_sequenceNum = v.GetOnionSeq then
      let received := r.events ++
        [Event.notifyRx p, Event.onionRoutingRecv now, Event.onionReceived]
      match ProcessOnionHead om onion.o_head with
      | none => ⟨received, none⟩
      | some (ip, o_head) =>
        let o_body := ProcessOnionBody self2.m_sensorValue onion.o_body
        let np : Packet := ⟨sw.SetData ⟨o_head, o_body⟩, none⟩
        let s := SendSegment self2.toWsn_node v (ip, self2.m_port) np true
        match s.state with
        | none => ⟨received ++ [Event.notifyTx p1] ++ s.events, none⟩
        | some w =>
          ⟨received ++ [Event.notifyTx p1] ++ s.events ++
            [Event.onionRoutingSend self2.m_address ip np.GetSize
              (sw.headByteSize o_head) (sw.bodyByteSize o_body) now],
           some { self2 with toWsn_node := w }⟩
    else
      ⟨r.events ++ [Event.notifyRx p,
          Event.logGhost self2.o_sequenceNum self2.m_address now], some self2⟩

/-- The read callback runs once for each chunk of one peer, in order, at
simulation time `now`; a run that stops leaves the later chunks unread. -/
def receiveAll (self : SensorNode) (v : OnionValidator) (om : OnionManager)
    (sw : Serialization) (now : Nat) (sender : Nat) : List Packet → Run SensorNode
  | [] => ⟨[], some self⟩
  | c :: cs =>
    let r := ReceivePacket self v om sw now c sender
    match r.state with
    | none => r
    | some s =>
      let rest := receiveAll s v om sw now sender cs
      ⟨r.events ++ rest.events, rest.state⟩

/-- A whole envelope as the transport delivers it: one untagged unit, or, into a
node with no pending packet, non-empty chunks that all carry the tag `L`, the
sum of their sizes (a 32-bit value). -/
def wholeDelivery (self : Wsn_node) (cs : List Packet) (L : Nat) : Prop :=
  (∃ c, cs = [c] ∧ c.segNum = none)
    ∨ (self.f_pendingPacket = none ∧ cs ≠ []
        ∧ (∀ c ∈ cs, c.segNum = some L ∧ c.bytes ≠ []) ∧ totalSize cs = L ∧ L < 2 ^ 32)

/-- The body after a path of hops, each running `ProcessOnionBody` with its own
sensed value. -/
def alongPath (onionBody : OnionBody) : List Int → OnionBody
  | [] => onionBody
  | v :: vs => alongPath (ProcessOnionBody v onionBody) vs

/-- The bodies seen along a path: the body as it leaves each hop. -/
def bodiesAlongPath (onionBody : OnionBody) : List Int → List OnionBody
  | [] => []
  | v :: vs => ProcessOnionBody v onionBody :: bodiesAlongPath (ProcessOnionBody v onionBody) vs

/-! ## Stub collaborators used at concrete inputs -/

/-- A key manager whose layers are two bytes thick; the next hop is 10.1.0.2. -/
def stubManager : OnionManager :=
  ⟨fun c => ⟨fun i => if i = 0 then 10 else if i = 1 then 1 else if i = 2 then 0 else 2,
             c.drop 2⟩⟩

/-- A key manager that hands back an inner layer three bytes longer than the
ciphertext it was given. -/
def growingManager : OnionManager :=
  ⟨fun c => ⟨fun i => if i = 0 then 10 else if i = 1 then 1 else if i = 2 then 0 else 2,
             c ++ [0, 0, 0]⟩⟩

/-- Writer of a small wire format: onion id, padding flag, padding length,
padding, aggregate flag, aggregate, onion message. -/
def stubSetData (m : ProtoPacket) : List Byte :=
  [Fin.ofNat m.o_head.onionid]
    ++ (match m.o_head.padding with
        | some pad => [1, Fin.ofNat pad.length] ++ pad
        | none => [0, 0])
    ++ (match m.o_body.aggregatedvalue with
        | some a => [1, Fin.ofNat a.toNat]
        | none => [0, 0])
    ++ m.o_head.onion_message

/-- Reader of the wire format of `stubSetData`. -/
def stubGetData (bs : List Byte) : ProtoPacket :=
  let padLen := (bs.getD 2 0).val
  let rest := (bs.drop 3).drop padLen
  ⟨⟨(bs.getD 0 0).val, rest.drop 2,
     if bs.getD 1 0 = 0 then none else some ((bs.drop 3).take padLen)⟩,
   ⟨if rest.getD 0 0 = 0 then none else some ((rest.getD 1 0).val : Int)⟩⟩

/-- The stub serialization: the header is the whole packet. -/
def stubWire : Serialization :=
  ⟨stubGetData, fun _ => [], stubSetData, fun h => h.onion_message.length + 4, fun _ => 2⟩

/-- A validator expecting onion 8, reporting 3 hops at send time and no
completed onion at check time. -/
def stubValidator : OnionValidator := ⟨8, 3, fun _ => false⟩

/-- A validator for which the checked hop count was completed. -/
def doneValidator : OnionValidator := ⟨8, 3, fun _ => true⟩

/-- A node at 10.1.0.1 (167837697), port 4242, segment size 536, timeout 100,
nothing pending. -/
def stubNode : Wsn_node :=
  { m_address := 167837697, m_port := 4242, f_mss := 536, m_onionTimeout := 100,
    f_pendingPacket := none, f_segmentSize := 0, f_receivingAddress := 0,
    o_hopCount := 0, o_sequenceNum := 8 }

/-- The sensor node on `stubNode`, sensing the value 5. -/
def stubSensor : SensorNode :=
  { toWsn_node := stubNode, m_sinkAddress := 167837700, m_sensorValue := 5 }

/-- The scenario of the spec: a 1200-byte message under segment size 536 arrives
as three chunks of 536, 536 and 128 bytes, each tagged 1200. -/
def chunks1200 : List Packet :=
  [⟨List.replicate 536 7, some 1200⟩, ⟨List.replicate 536 7, some 1200⟩,
   ⟨List.replicate 128 7, some 1200⟩]

/-- The node `stubNode` configured with a maximum segment size of 0. -/
def zeroMssNode : Wsn_node := { stubNode with f_mss := 0 }

/-- The calls of `Wsn_node::SendSegment` in a run: remote address, port,
packet and onion flag of each. -/
def sendSegmentCalls : List Event → List (Nat × Nat × Packet × Bool)
  | [] => []
  | Event.sendSegment ip port p b :: es => (ip, port, p, b) :: sendSegmentCalls es
  | _ :: es => sendSegmentCalls es

/-- The events of a forward: a `SendSegment` call and its socket traffic, an
armed watchdog and its abort, the notification of the validator, the onion
send/receive telemetry and the transmit notification.  What is left are the
socket close, the receive notification and the diagnostic log. -/
def Event.ofForward : Event → Bool
  | Event.close => false
  | Event.notifyRx _ => false
  | Event.logGhost _ _ _ => false
  | _ => true

/-- An envelope with onion id 3 (the stub validators expect 8), no padding, no
aggregate. -/
def staleEnvelope : ProtoPacket := ⟨⟨3, [1, 2, 3, 4], none⟩, ⟨none⟩⟩

/-- An envelope with the expected onion id 8, an empty padding field and a
two-byte onion. -/
def paddedEnvelope : ProtoPacket := ⟨⟨8, [1, 2], some []⟩, ⟨some 10⟩⟩

/-- An envelope with the expected onion id 8, a six-byte onion, four bytes of
padding and the aggregate 10. -/
def goodEnvelope : ProtoPacket := ⟨⟨8, [1, 2, 3, 4, 5, 6], some [48, 48, 48, 48]⟩, ⟨some 10⟩⟩

/-- A message of `2 ^ 32 - 1` zero bytes, the largest size a `Packet` reports. -/
def hugeMessage : List Byte := List.replicate 4294967295 0

/-- Chunks of several peers are read one by one, each by a call of `RecvSeg`
with the address of its sender. -/
def feedMany (self : Wsn_node) : List (Packet × Nat) → Wsn_node × List (Option Packet)
  | [] => (self, [])
  | (c, sender) :: rest =>
    let r := RecvSeg self c sender
    let later := feedMany r.node rest
    (later.1, r.packet :: later.2)

/-- The node `stubNode` in the middle of a reassembly from 10.1.0.3 (167837699):
two bytes of a five-byte message are pending, three remain. -/
def busyNode : Wsn_node :=
  { stubNode with f_pendingPacket := some ⟨[9, 9], some 5⟩
                  f_segmentSize := 3
                  f_receivingAddress := 167837699 }

/-- A head with onion id 8, a six-byte onion and four zero bytes of padding. -/
def zeroPaddedHead : OnionHead := ⟨8, [1, 2, 3, 4, 5, 6], some [0, 0, 0, 0]⟩

/-- An onion message of `2 ^ 31` zero bytes. -/
def hugeOnion : List Byte := List.replicate 2147483648 0

/-- A head with onion id 8, the onion message `hugeOnion` and an empty padding
field. -/
def hugeHead : OnionHead := ⟨8, hugeOnion, some []⟩

/-- A key manager whose inner layer is empty; the next hop is 0.0.0.0. -/
def emptyingManager : OnionManager := ⟨fun _ => ⟨fun _ => 0, []⟩⟩

/-! ## Theorems -/

theorem bigEndian_or_eq_sum (b0 b1 b2 b3 : Nat) (h1 : b1 < 256) (h2 : b2 < 256)
    (h3 : b3 < 256) :
    (b0 <<< 24) ||| (b1 <<< 16) ||| (b2 <<< 8) ||| b3
      = b0 * 2 ^ 24 + b1 * 2 ^ 16 + b2 * 2 ^ 8 + b3 := by
  have e1 : (b0 <<< 24) ||| (b1 <<< 16) = 2 ^ 16 * (2 ^ 8 * b0 + b1) := by
    have h := Nat.mul_add_lt_is_or (i := 24) (b := b1 * 2 ^ 16) (by omega) b0
    rw [Nat.shiftLeft_eq, Nat.shiftLeft_eq, Nat.mul_comm b0, ← h]
    omega
  have e2 : 2 ^ 16 * (2 ^ 8 * b0 + b1) ||| (b2 <<< 8) = 2 ^ 8 * (2 ^ 16 * b0 + 2 ^ 8 * b1 + b2) := by
    have h := Nat.mul_add_lt_is_or (i := 16) (b := b2 * 2 ^ 8) (by omega) (2 ^ 8 * b0 + b1)
    rw [Nat.shiftLeft_eq, ← h]
    omega
  have e3 := Nat.mul_add_lt_is_or (i := 8) (b := b3) (by omega) (2 ^ 16 * b0 + 2 ^ 8 * b1 + b2)
  rw [e1, e2, ← e3]
  omega

/-- C10. Address conversion: for every four bytes, `DeserializeIpv4ToInt` returns
`(b0<<24)|(b1<<16)|(b2<<8)|b3`; the 32-bit add-and-shift accumulation equals the
same accumulation on unbounded naturals, so no step carries or overflows. -/
theorem C10_deserializeIpv4_bigEndian (buff : Fin 4 → Byte) :
    DeserializeIpv4ToInt buff
        = ((buff 0).val <<< 24) ||| ((buff 1).val <<< 16) ||| ((buff 2).val <<< 8) ||| (buff 3).val
      ∧ DeserializeIpv4ToInt buff = accumulateBytes buff
      ∧ DeserializeIpv4ToInt buff < 2 ^ 32 := by
  have h0 := (buff 0).isLt
  have h1 := (buff 1).isLt
  have h2 := (buff 2).isLt
  have h3 := (buff 3).isLt
  rw [bigEndian_or_eq_sum _ _ _ _ h1 h2 h3]
  simp only [DeserializeIpv4ToInt, accumulateBytes, Nat.shiftLeft_eq]
  omega

/-! ### Reassembly -/

theorem RecvSeg_untagged (self : Wsn_node) (p : Packet) (sender : Nat)
    (h : p.segNum = none) : RecvSeg self p sender = ⟨self, some p, [Event.close]⟩ := by
  simp only [RecvSeg, h]

theorem RecvSeg_fresh (self : Wsn_node) (p : Packet) (sender t : Nat)
    (hp : p.segNum = some t) (h : self.f_pendingPacket = none) :
    RecvSeg self p sender
      = RecvSeg { self with f_receivingAddress := sender
                            f_pendingPacket := some Packet.Create
                            f_segmentSize := t } p sender := by
  simp [RecvSeg, hp, h]

theorem RecvSeg_last (self : Wsn_node) (p q : Packet) (sender t : Nat)
    (hp : p.segNum = some t) (hq : self.f_pendingPacket = some q)
    (hs : self.f_receivingAddress = sender)
    (hz : sub32 self.f_segmentSize p.GetSize = 0) :
    RecvSeg self p sender = ⟨cleared self, some (q.AddAtEnd p), [Event.close]⟩ := by
  simp [RecvSeg, hp, hq, hs, hz, cleared]

theorem RecvSeg_more (self : Wsn_node) (p q : Packet) (sender t : Nat)
    (hp : p.segNum = some t) (hq : self.f_pendingPacket = some q)
    (hs : self.f_receivingAddress = sender)
    (hz : sub32 self.f_segmentSize p.GetSize ≠ 0) :
    RecvSeg self p sender
      = ⟨{ self with f_pendingPacket := some (q.AddAtEnd p)
                     f_segmentSize := sub32 self.f_segmentSize p.GetSize }, none, []⟩ := by
  simp [RecvSeg, hp, hq, hs, hz]

theorem totalSize_cons (c : Packet) (cs : List Packet) :
    totalSize (c :: cs) = c.bytes.length + totalSize cs := by
  simp [totalSize]

theorem allBytes_cons (c : Packet) (cs : List Packet) :
    allBytes (c :: cs) = c.bytes ++ allBytes cs := by
  simp [allBytes]

theorem length_allBytes (cs : List Packet) : (allBytes cs).length = totalSize cs := by
  induction cs with
  | nil => rfl
  | cons c cs ih => simp [allBytes_cons, totalSize_cons, ih]

theorem totalSize_pos (cs : List Packet) (hne : cs ≠ [])
    (hcs : ∀ c ∈ cs, c.bytes ≠ []) : 0 < totalSize cs := by
  cases cs with
  | nil => exact absurd rfl hne
  | cons c cs =>
    have h1 : c.bytes ≠ [] := hcs c (by simp)
    have h2 : 0 < c.bytes.length := List.length_pos.2 h1
    rw [totalSize_cons]
    omega

theorem AddAtEnd_bytes (q p : Packet) : (q.AddAtEnd p).bytes = q.bytes ++ p.bytes := by
  unfold Packet.AddAtEnd
  cases q.segNum <;> rfl

theorem sub32_of_le (a b : Nat) (ha : a + b < 2 ^ 32) : sub32 (b + a) (b % 2 ^ 32) = a := by
  unfold sub32
  omega

/-- Reassembly in progress: the pending packet is `q`, the chunks still to come
are `cs`, all tagged, none empty, and the remaining count is their total size. -/
theorem feed_in_progress (sender : Nat) (cs : List Packet) :
    ∀ (self : Wsn_node) (q : Packet), cs ≠ [] →
      (∀ c ∈ cs, c.segNum ≠ none ∧ c.bytes ≠ []) →
      self.f_pendingPacket = some q → self.f_receivingAddress = sender →
      self.f_segmentSize = totalSize cs → totalSize cs < 2 ^ 32 →
      ∃ out, feed self sender cs
          = (cleared self, List.replicate (cs.length - 1) none ++ [some out])
        ∧ out.bytes = q.bytes ++ allBytes cs := by
  induction cs with
  | nil => intro _ _ h; exact absurd rfl h
  | cons c cs ih =>
    intro self q _ hcs hq hs hsize hlt
    obtain ⟨htag, hbytes⟩ := hcs c (by simp)
    obtain ⟨t, ht⟩ := Option.ne_none_iff_exists'.1 htag
    rw [totalSize_cons] at hsize hlt
    have hsub : sub32 self.f_segmentSize c.GetSize = totalSize cs := by
      rw [hsize]
      exact sub32_of_le _ _ (by omega)
    by_cases hnil : cs = []
    · subst hnil
      have hz : sub32 self.f_segmentSize c.GetSize = 0 := by rw [hsub]; rfl
      refine ⟨q.AddAtEnd c, ?_, ?_⟩
      · simp [feed, RecvSeg_last self c q sender t ht hq hs hz]
      · simp [AddAtEnd_bytes, allBytes]
    · have hrest : ∀ c ∈ cs, c.segNum ≠ none ∧ c.bytes ≠ [] :=
        fun x hx => hcs x (List.mem_cons_of_mem _ hx)
      have hpos := totalSize_pos cs hnil (fun x hx => (hrest x hx).2)
      have hz : sub32 self.f_segmentSize c.GetSize ≠ 0 := by rw [hsub]; omega
      obtain ⟨out, hfeed, hout⟩ :=
        ih { self with f_pendingPacket := some (q.AddAtEnd c)
                       f_segmentSize := sub32 self.f_segmentSize c.GetSize }
          (q.AddAtEnd c) hnil hrest rfl hs hsub (by omega)
      refine ⟨out, ?_, ?_⟩
      · have hlen : (c :: cs).length - 1 = (cs.length - 1) + 1 := by
          have := List.length_pos.2 hnil
          simp only [List.length_cons]
          omega
        rw [hlen, List.replicate_succ]
        simp only [feed, RecvSeg_more self c q sender t ht hq hs hz, hfeed]
        rfl
      · rw [hout, AddAtEnd_bytes, allBytes_cons, List.append_assoc]

/-- Reassembly from an empty buffer: chunks of one peer, none empty, all tagged
with the total size `L` of the sequence. -/
theorem feed_from_empty (self : Wsn_node) (sender L : Nat) (cs : List Packet)
    (hempty : self.f_pendingPacket = none) (hne : cs ≠ [])
    (hcs : ∀ c ∈ cs, c.segNum = some L ∧ c.bytes ≠ [])
    (hsum : totalSize cs = L) (hL : L < 2 ^ 32) :
    ∃ out, feed self sender cs
        = (cleared self, List.replicate (cs.length - 1) none ++ [some out])
      ∧ out.bytes = allBytes cs := by
  cases cs with
  | nil => exact absurd rfl hne
  | cons c cs =>
    have hc := hcs c (by simp)
    have hstart : feed self sender (c :: cs)
        = feed { self with f_receivingAddress := sender
                           f_pendingPacket := some Packet.Create
                           f_segmentSize := L } sender (c :: cs) := by
      simp only [feed, RecvSeg_fresh self c sender L hc.1 hempty]
    obtain ⟨out, hfeed, hout⟩ :=
      feed_in_progress sender (c :: cs)
        { self with f_receivingAddress := sender
                    f_pendingPacket := some Packet.Create
                    f_segmentSize := L } Packet.Create hne
        (fun x hx => ⟨by rw [(hcs x hx).1]; simp, (hcs x hx).2⟩) rfl rfl hsum.symm
        (by rw [hsum]; exact hL)
    refine ⟨out, ?_, ?_⟩
    · rw [hstart, hfeed]
      rfl
    · rw [hout]
      rfl

/-- C3. Exactly-once reassembly: for `L > 0` (a 32-bit tag value) and in-order
non-empty chunks of one peer whose sizes sum to `L`, each tagged `L`, fed to
`RecvSeg` from an empty buffer: every call but the last returns `NULL`, the last
returns one message, of length `L` and made of the chunks' bytes in order, and
afterwards no packet is pending and the receiving address is the any-address. -/
theorem C3_exactly_once_reassembly (self : Wsn_node) (sender L : Nat) (cs : List Packet)
    (hempty : self.f_pendingPacket = none) (hpos : 0 < L) (hL : L < 2 ^ 32)
    (hcs : ∀ c ∈ cs, c.segNum = some L ∧ c.bytes ≠ [])
    (hsum : totalSize cs = L) :
    ∃ out, (feed self sender cs).2 = List.replicate (cs.length - 1) none ++ [some out]
      ∧ out.bytes.length = L
      ∧ out.bytes = allBytes cs
      ∧ (feed self sender cs).1.f_pendingPacket = none
      ∧ (feed self sender cs).1.f_receivingAddress = Ipv4Any := by
  have hne : cs ≠ [] := by
    intro h
    subst h
    simp [totalSize] at hsum
    omega
  obtain ⟨out, hfeed, hout⟩ := feed_from_empty self sender L cs hempty hne hcs hsum hL
  refine ⟨out, ?_, ?_, hout, ?_, ?_⟩
  · rw [hfeed]
  · rw [hout, length_allBytes, hsum]
  · rw [hfeed]; rfl
  · rw [hfeed]; rfl

theorem chunks1200_tagged : ∀ c ∈ chunks1200, c.segNum = some 1200 ∧ c.bytes ≠ [] := by
  have hrep : ∀ n : Nat, 0 < n → List.replicate n (7 : Byte) ≠ [] := by
    intro n hn h
    have := congrArg List.length h
    rw [List.length_replicate] at this
    simp only [List.length_nil] at this
    omega
  intro c hc
  simp only [chunks1200, List.mem_cons, List.mem_singleton, List.not_mem_nil, or_false] at hc
  rcases hc with h | h | h <;> subst h
  · exact ⟨rfl, hrep 536 (by omega)⟩
  · exact ⟨rfl, hrep 536 (by omega)⟩
  · exact ⟨rfl, hrep 128 (by omega)⟩

theorem chunks1200_size : totalSize chunks1200 = 1200 := by
  simp only [totalSize, chunks1200, List.map, List.length_replicate, List.sum_cons,
    List.sum_nil]
  rfl

/-- C3 in the scenario of the spec (segment size 536, tag 1200, chunks of 536,
536 and 128 bytes). -/
theorem C3_exactly_once_reassembly_witness :
    stubNode.f_pendingPacket = none ∧ 0 < 1200 ∧ 1200 < 2 ^ 32
      ∧ (∀ c ∈ chunks1200, c.segNum = some 1200 ∧ c.bytes ≠ [])
      ∧ totalSize chunks1200 = 1200
      ∧ ∃ out, (feed stubNode 167837698 chunks1200).2
            = List.replicate (chunks1200.length - 1) none ++ [some out]
          ∧ out.bytes.length = 1200
          ∧ out.bytes = allBytes chunks1200
          ∧ (feed stubNode 167837698 chunks1200).1.f_pendingPacket = none
          ∧ (feed stubNode 167837698 chunks1200).1.f_receivingAddress = Ipv4Any :=
  ⟨rfl, by decide, by decide, chunks1200_tagged, chunks1200_size,
    C3_exactly_once_reassembly stubNode 167837698 1200 chunks1200 rfl (by decide) (by decide)
      chunks1200_tagged chunks1200_size⟩

/-! ### Sending -/

theorem pack_size_exact (n : Nat) (hn : n < 2 ^ 31) : toInt32 ((n % 2 ^ 32 : Nat) : Int) = (n : Int) := by
  unfold toInt32
  omega

theorem seg_num_eq_zero_iff (n mss : Nat) (hm : 0 < mss) :
    Int.tdiv (n : Int) (mss : Int) = 0 ↔ n < mss := by
  rw [Int.tdiv_eq_ediv (by omega) (by omega)]
  constructor
  · intro h
    have h1 : (n / mss : Nat) = 0 := by exact_mod_cast h
    exact (Nat.div_eq_zero_iff hm).1 h1
  · intro h
    have h1 : (n / mss : Nat) = 0 := (Nat.div_eq_zero_iff hm).2 h
    exact_mod_cast h1

theorem SegmentNum_exact (n : Nat) (hn : n < 2 ^ 31) : SegmentNum (n : Int) = n := by
  unfold SegmentNum toUInt32
  omega

theorem sentPackets_append (xs ys : List Event) :
    sentPackets (xs ++ ys) = sentPackets xs ++ sentPackets ys := by
  induction xs with
  | nil => rfl
  | cons e xs ih => cases e <;> simp [sentPackets, ih]

/-- The run of `SendSegment` on an untagged packet shorter than `f_mss`. -/
theorem SendSegment_short (self : Wsn_node) (v : OnionValidator) (remote : Nat × Nat)
    (m : List Byte) (b_onion : Bool) (hm : m.length < 2 ^ 31) (hlt : m.length < self.f_mss) :
    SendSegment self v remote ⟨m, none⟩ b_onion
      = ⟨[Event.sendSegment remote.1 remote.2 ⟨m, none⟩ b_onion,
            Event.connect remote.1 remote.2]
          ++ (if b_onion then [Event.schedule self.m_onionTimeout v.OnionHopCount] else [])
          ++ [Event.send ⟨m, none⟩],
         some (if b_onion then { self with o_hopCount := v.OnionHopCount } else self)⟩ := by
  have h0 : self.f_mss ≠ 0 := by omega
  have hz := (seg_num_eq_zero_iff m.length self.f_mss (by omega)).2 hlt
  unfold SendSegment
  simp only [Packet.GetSize, pack_size_exact m.length hm, if_neg h0, hz, if_true]
  cases b_onion <;> rfl

/-- The run of `SendSegment` on an untagged packet of at least `f_mss` bytes. -/
theorem SendSegment_long (self : Wsn_node) (v : OnionValidator) (remote : Nat × Nat)
    (m : List Byte) (b_onion : Bool) (hmss : 0 < self.f_mss) (hm : m.length < 2 ^ 31)
    (hge : self.f_mss ≤ m.length) :
    SendSegment self v remote ⟨m, none⟩ b_onion
      = ⟨[Event.sendSegment remote.1 remote.2 ⟨m, none⟩ b_onion,
            Event.connect remote.1 remote.2]
          ++ (if b_onion then [Event.schedule self.m_onionTimeout v.OnionHopCount] else [])
          ++ [Event.send ⟨m, some m.length⟩],
         some (if b_onion then { self with o_hopCount := v.OnionHopCount } else self)⟩ := by
  have h0 : self.f_mss ≠ 0 := by omega
  have hnz : ¬ Int.tdiv (m.length : Int) (self.f_mss : Int) = 0 := fun h =>
    absurd ((seg_num_eq_zero_iff m.length self.f_mss hmss).1 h) (by omega)
  unfold SendSegment
  simp only [Packet.GetSize, pack_size_exact m.length hm, if_neg h0, hnz, if_false,
    SegmentNum_exact m.length hm, Packet.AddByteTag]
  cases b_onion <;> rfl

theorem sentPackets_entry (ip port : Nat) (p q : Packet) (b : Bool) (armed : List Event)
    (harmed : sentPackets armed = []) :
    sentPackets ([Event.sendSegment ip port p b, Event.connect ip port] ++ armed
      ++ [Event.send q]) = [q] := by
  rw [sentPackets_append, sentPackets_append, harmed]
  rfl

/-- What `SendSegment` writes for an untagged packet of `int` size under a
positive segment size: the packet itself when it is shorter than `f_mss`, the
packet tagged with its size otherwise. -/
theorem SendSegment_sent (self : Wsn_node) (v : OnionValidator) (remote : Nat × Nat)
    (m : List Byte) (b_onion : Bool) (hmss : 0 < self.f_mss) (hm : m.length < 2 ^ 31) :
    sentPackets (SendSegment self v remote ⟨m, none⟩ b_onion).events
      = [⟨m, if m.length < self.f_mss then none else some m.length⟩] := by
  have harmed : sentPackets
      (if b_onion then [Event.schedule self.m_onionTimeout v.OnionHopCount] else []) = [] := by
    cases b_onion <;> rfl
  by_cases hlt : m.length < self.f_mss
  · rw [SendSegment_short self v remote m b_onion hm hlt, if_pos hlt]
    exact sentPackets_entry _ _ _ _ _ _ harmed
  · rw [SendSegment_long self v remote m b_onion hmss hm (by omega), if_neg hlt]
    exact sentPackets_entry _ _ _ _ _ _ harmed

/-! ### Transport -/

theorem cutBytes_flatten (mss fuel : Nat) (bs : List Byte) :
    (cutBytes mss fuel bs).flatten = bs := by
  induction fuel generalizing bs with
  | zero => simp [cutBytes]
  | succ k ih =>
    unfold cutBytes
    split
    · simp
    · simp [ih]

theorem cutBytes_ne_nil (mss fuel : Nat) (bs : List Byte) : cutBytes mss fuel bs ≠ [] := by
  cases fuel with
  | zero => simp [cutBytes]
  | succ k =>
    unfold cutBytes
    split <;> simp

theorem cutBytes_nonempty (mss fuel : Nat) (bs : List Byte) (hmss : 0 < mss) (hbs : bs ≠ []) :
    ∀ c ∈ cutBytes mss fuel bs, c ≠ [] := by
  induction fuel generalizing bs with
  | zero => simp [cutBytes, hbs]
  | succ k ih =>
    have hlen : 0 < bs.length := List.length_pos.2 hbs
    unfold cutBytes
    split
    · simp [hbs]
    · rename_i hgt
      intro c hc
      rcases List.mem_cons.1 hc with h | h
      · subst h
        intro h0
        have := congrArg List.length h0
        rw [List.length_take, List.length_nil] at this
        omega
      · refine ih (bs.drop mss) ?_ c h
        intro h0
        have := congrArg List.length h0
        rw [List.length_drop, List.length_nil] at this
        omega

theorem cutBytes_fits (mss n : Nat) (bs : List Byte) (h : bs.length ≤ mss) :
    cutBytes mss n bs = [bs] := by
  cases n with
  | zero => rfl
  | succ k => simp [cutBytes, h]

/-- With enough fuel no piece is longer than `mss`. -/
theorem cutBytes_le (mss fuel : Nat) (bs : List Byte) (hmss : 0 < mss)
    (hfuel : bs.length ≤ fuel) : ∀ c ∈ cutBytes mss fuel bs, c.length ≤ mss := by
  induction fuel generalizing bs with
  | zero =>
    intro c hc
    simp only [cutBytes, List.mem_singleton] at hc
    subst hc
    omega
  | succ k ih =>
    unfold cutBytes
    split
    · intro c hc
      simp only [List.mem_singleton] at hc
      subst hc
      assumption
    · intro c hc
      rcases List.mem_cons.1 hc with h | h
      · subst h
        rw [List.length_take]
        omega
      · refine ih (bs.drop mss) ?_ c h
        rw [List.length_drop]
        omega

/-- The transport never hands over more than `mss` bytes at once. -/
theorem transportSegments_le (mss : Nat) (p : Packet) (hmss : 0 < mss) :
    ∀ c ∈ transportSegments mss p, c.bytes.length ≤ mss := by
  intro c hc
  simp only [transportSegments, List.mem_map] at hc
  obtain ⟨bs, hbs, rfl⟩ := hc
  exact cutBytes_le mss _ p.bytes hmss (Nat.le_refl _) bs hbs

theorem allBytes_transportSegments (mss : Nat) (p : Packet) :
    allBytes (transportSegments mss p) = p.bytes := by
  simp only [allBytes, transportSegments, List.map_map]
  have : (Packet.bytes ∘ fun bs => (⟨bs, p.segNum⟩ : Packet)) = id := by
    funext bs
    rfl
  rw [this, List.map_id, cutBytes_flatten]

theorem totalSize_eq_length_allBytes (cs : List Packet) :
    totalSize cs = (allBytes cs).length := (length_allBytes cs).symm

/-! ### Round trip -/

theorem feed_single_untagged (rcv : Wsn_node) (peer : Nat) (p : Packet)
    (h : p.segNum = none) : feed rcv peer [p] = (rcv, [some p]) := by
  simp [feed, RecvSeg_untagged rcv p peer h]

theorem transportSegments_tagged (mss : Nat) (p : Packet) (hmss : 0 < mss) (hp : p.bytes ≠ []) :
    ∀ c ∈ transportSegments mss p, c.segNum = p.segNum ∧ c.bytes ≠ [] := by
  intro c hc
  simp only [transportSegments, List.mem_map] at hc
  obtain ⟨bs, hbs, rfl⟩ := hc
  exact ⟨rfl, cutBytes_nonempty mss _ p.bytes hmss hp bs hbs⟩

theorem cutBytes_step (mss fuel : Nat) (bs : List Byte) (hfuel : 0 < fuel)
    (h : ¬ bs.length ≤ mss) :
    cutBytes mss fuel bs = bs.take mss :: cutBytes mss (fuel - 1) (bs.drop mss) := by
  cases fuel with
  | zero => omega
  | succ k => simp only [cutBytes, if_neg h, Nat.add_sub_cancel]

theorem hugeMessage_length : hugeMessage.length = 4294967295 := List.length_replicate _ _

theorem hugeMessage_take : hugeMessage.take 536 = List.replicate 536 0 := by
  unfold hugeMessage
  rw [List.take_replicate]
  rfl

/-- Whenever `seg_num` is 0 the packet is written as it is. -/
theorem SendSegment_seg_num_zero (self : Wsn_node) (v : OnionValidator) (remote : Nat × Nat)
    (p : Packet) (b_onion : Bool) (h0 : self.f_mss ≠ 0)
    (hz : Int.tdiv (toInt32 p.GetSize) self.f_mss = 0) :
    sentPackets (SendSegment self v remote p b_onion).events = [p] := by
  unfold SendSegment
  simp only [if_neg h0, hz, if_true]
  cases b_onion <;> rfl

/-- The size `2 ^ 32 - 1` is the `int` `-1`, and `-1 / 536` is 0. -/
theorem seg_num_size_minus_one :
    Int.tdiv (toInt32 ((4294967295 : Nat) : Int)) (stubNode.f_mss : Int) = 0 := by
  decide

/-- A packet of `2 ^ 32 - 1` bytes is written without a tag. -/
theorem SendSegment_size_minus_one (p : Packet) (hsize : p.GetSize = 4294967295) :
    sentPackets (SendSegment stubNode stubValidator (167837698, 4242) p false).events
      = [p] := by
  refine SendSegment_seg_num_zero stubNode stubValidator _ p false (by decide) ?_
  rw [hsize]
  exact seg_num_size_minus_one

/-- The transport hands the first 536 bytes of an untagged message of
`2 ^ 32 - 1` bytes to `RecvSeg`, which returns them as a whole message. -/
theorem roundTrip_size_minus_one (m : List Byte) (hlen : m.length = 4294967295) :
    (roundTrip stubNode stubValidator (167837698, 4242) false stubNode 167837697 m).head?
      = some (some ⟨m.take 536, none⟩) := by
  have hsize : (⟨m, none⟩ : Packet).GetSize = 4294967295 := by
    simp only [Packet.GetSize, hlen]
    rfl
  have hnot : ¬ m.length ≤ 536 := by omega
  have hcut : transportSegments 536 ⟨m, none⟩
      = ⟨m.take 536, none⟩
          :: (cutBytes 536 (m.length - 1) (m.drop 536)).map (fun bs => ⟨bs, none⟩) := by
    unfold transportSegments
    rw [cutBytes_step 536 m.length m (by omega) hnot, List.map_cons]
  have hmss : stubNode.f_mss = 536 := rfl
  have hfirst : ∀ rest, (feed stubNode 167837697 (⟨m.take 536, none⟩ :: rest)).2
      = some ⟨m.take 536, none⟩ :: (feed stubNode 167837697 rest).2 := by
    intro rest
    rw [feed, RecvSeg_untagged stubNode ⟨m.take 536, none⟩ 167837697 rfl]
  unfold roundTrip
  rw [SendSegment_size_minus_one _ hsize, hmss, deliver, hcut, hfirst]
  rfl

/-- C1 as stated fails for the segment size 0: `pack_size / f_mss` divides by
zero, the run of `SendSegment` stops before anything is written, and `RecvSeg`
returns no message at all.  It also fails for a message of `2 ^ 32 - 1` bytes
under segment size 536: its `int` size is `-1`, so it is written untagged, and
`RecvSeg` returns the first 536 bytes as a whole message. -/
theorem C1_counterexample :
    (SendSegment zeroMssNode stubValidator (167837698, 4242) ⟨[1, 2, 3], none⟩ false).state = none
      ∧ roundTrip zeroMssNode stubValidator (167837698, 4242) false stubNode 167837697
          [1, 2, 3] = []
      ∧ hugeMessage.length = 2 ^ 32 - 1
      ∧ (roundTrip stubNode stubValidator (167837698, 4242) false stubNode 167837697
          hugeMessage).head? = some (some ⟨List.replicate 536 0, none⟩) := by
  refine ⟨by decide, by decide, hugeMessage_length, ?_⟩
  rw [roundTrip_size_minus_one hugeMessage hugeMessage_length, hugeMessage_take]

/-- C1 (amended). Round-trip segmentation: for every segment size `s ≥ 1` and
every message `m` (of a size `int pack_size` holds), when `m` is sent with
`SendSegment` under `s`, the written bytes are cut by the transport into
consecutive in-order chunks, each carrying the tag `SendSegment` attached, and
the chunks are fed one by one from a single peer to `RecvSeg` starting from an
empty reassembly buffer, then every call but the last returns `NULL` and the last
returns a message whose bytes are `m`. -/
theorem C1_round_trip (snd rcv : Wsn_node) (v : OnionValidator) (remote : Nat × Nat)
    (b_onion : Bool) (peer : Nat) (m : List Byte)
    (hmss : 0 < snd.f_mss) (hm : m.length < 2 ^ 31)
    (hempty : rcv.f_pendingPacket = none) :
    ∃ out k, roundTrip snd v remote b_onion rcv peer m
        = List.replicate k none ++ [some out]
      ∧ out.bytes = m := by
  unfold roundTrip
  rw [SendSegment_sent snd v remote m b_onion hmss hm]
  by_cases hlt : m.length < snd.f_mss
  · refine ⟨⟨m, none⟩, 0, ?_, rfl⟩
    have hcut : transportSegments snd.f_mss ⟨m, none⟩ = [⟨m, none⟩] := by
      simp only [transportSegments, cutBytes_fits snd.f_mss m.length m (by omega)]
      rfl
    simp only [if_pos hlt, deliver, hcut, feed_single_untagged rcv peer ⟨m, none⟩ rfl]
    rfl
  · have hne : m ≠ [] := by
      intro h
      subst h
      simp only [List.length_nil] at hlt
      omega
    have hcs := transportSegments_tagged snd.f_mss ⟨m, some m.length⟩ hmss hne
    have hbytes := allBytes_transportSegments snd.f_mss ⟨m, some m.length⟩
    have hsum : totalSize (transportSegments snd.f_mss ⟨m, some m.length⟩) = m.length := by
      rw [totalSize_eq_length_allBytes, hbytes]
    have hnil : transportSegments snd.f_mss ⟨m, some m.length⟩ ≠ [] := by
      simp only [transportSegments, ne_eq, List.map_eq_nil_iff]
      exact cutBytes_ne_nil _ _ _
    obtain ⟨out, hfeed, hout⟩ :=
      feed_from_empty rcv peer m.length _ hempty hnil hcs hsum (by omega)
    refine ⟨out, (transportSegments snd.f_mss ⟨m, some m.length⟩).length - 1, ?_, ?_⟩
    · simp only [if_neg hlt, deliver, hfeed, List.append_nil]
    · rw [hout, hbytes]

/-- C1 at a concrete input: a 5-byte message under segment size 2 travels as
three tagged chunks and comes back whole. -/
theorem C1_round_trip_witness :
    0 < ({ stubNode with f_mss := 2 } : Wsn_node).f_mss
      ∧ [(1 : Byte), 2, 3, 4, 5].length < 2 ^ 31
      ∧ stubNode.f_pendingPacket = none
      ∧ ∃ out k, roundTrip { stubNode with f_mss := 2 } stubValidator (167837698, 4242) true
            stubNode 167837697 [1, 2, 3, 4, 5]
          = List.replicate k none ++ [some out]
        ∧ out.bytes = [1, 2, 3, 4, 5] :=
  ⟨by decide, by decide, rfl,
    C1_round_trip { stubNode with f_mss := 2 } stubNode stubValidator (167837698, 4242) true
      167837697 [1, 2, 3, 4, 5] (by decide) (by decide) rfl⟩

/-- The concrete round trip, evaluated. -/
theorem roundTrip_five_bytes :
    roundTrip { stubNode with f_mss := 2 } stubValidator (167837698, 4242) true
        stubNode 167837697 [1, 2, 3, 4, 5]
      = [none, none, some ⟨[1, 2, 3, 4, 5], some 5⟩]
    ∧ transportSegments 2 ⟨[1, 2, 3, 4, 5], some 5⟩
      = [⟨[1, 2], some 5⟩, ⟨[3, 4], some 5⟩, ⟨[5], some 5⟩] := by
  decide

/-! ### Single-segment fast path -/

/-- C2, the code at the failing input: a message of exactly `f_mss = 536` bytes
is written with the length tag 536 attached. -/
theorem C2_tag_attached_at_len_eq_mss :
    stubNode.f_mss = 536 ∧ (List.replicate 536 (7 : Byte)).length = 536
      ∧ sentPackets (SendSegment stubNode stubValidator (167837698, 4242)
            ⟨List.replicate 536 7, none⟩ false).events
          = [⟨List.replicate 536 7, some 536⟩] := by
  refine ⟨rfl, List.length_replicate _ _, ?_⟩
  have hlen : (List.replicate 536 (7 : Byte)).length = 536 := List.length_replicate _ _
  have hmss : 0 < stubNode.f_mss := by decide
  have hint : (List.replicate 536 (7 : Byte)).length < 2 ^ 31 := by rw [hlen]; decide
  rw [SendSegment_sent stubNode stubValidator _ _ false hmss hint, hlen]
  rfl

/-! ### Watchdog -/

theorem scheduledChecks_append (t : Nat) (xs ys : List Event) :
    scheduledChecks t (xs ++ ys) = scheduledChecks t xs ++ scheduledChecks t ys := by
  induction xs with
  | nil => rfl
  | cons e xs ih => cases e <;> simp [scheduledChecks, ih]

/-- The shape of every run of `SendSegment` under a positive segment size. -/
theorem SendSegment_events (self : Wsn_node) (v : OnionValidator) (remote : Nat × Nat)
    (packet : Packet) (b_onion : Bool) (hmss : 0 < self.f_mss) :
    ∃ q, (SendSegment self v remote packet b_onion).events
      = [Event.sendSegment remote.1 remote.2 packet b_onion, Event.connect remote.1 remote.2]
        ++ (if b_onion then [Event.schedule self.m_onionTimeout v.OnionHopCount] else [])
        ++ [Event.send q] := by
  have h0 : self.f_mss ≠ 0 := by omega
  unfold SendSegment
  simp only [if_neg h0]
  split
  · exact ⟨packet, by cases b_onion <;> rfl⟩
  · exact ⟨packet.AddByteTag (SegmentNum (toInt32 packet.GetSize)), by cases b_onion <;> rfl⟩

/-- C8 as stated fails for `f_mss = 0`: the division by zero stops `SendSegment`
before `Simulator::Schedule` is reached, so a call with the onion flag set
schedules no check. -/
theorem C8_counterexample_zero_segment_size :
    (SendSegment zeroMssNode stubValidator (167837698, 4242) ⟨[1, 2, 3], none⟩ true).state = none
      ∧ scheduledChecks 50
          (SendSegment zeroMssNode stubValidator (167837698, 4242) ⟨[1, 2, 3], none⟩ true).events
        = [] := by
  decide

/-- C8 (amended). Watchdog firing: for every `SendSegment` call at time `t` under
a segment size `f_mss ≥ 1`: with the onion flag set exactly one `CheckSentOnion`
event is scheduled, at `t + onionTimeout`, carrying the hop count the validator
reported at send time, and the node stores that hop count; when that event runs
it records exactly one abort event, at time `t + onionTimeout`, if the validator
answers that the hops were not completed, and records nothing otherwise; with the
onion flag cleared no check is scheduled. -/
theorem C8_watchdog (self : Wsn_node) (v : OnionValidator) (remote : Nat × Nat)
    (packet : Packet) (t : Nat) (hmss : 0 < self.f_mss) :
    scheduledChecks t (SendSegment self v remote packet true).events
        = [⟨t + self.m_onionTimeout, v.OnionHopCount⟩]
      ∧ (SendSegment self v remote packet true).state
        = some { self with o_hopCount := v.OnionHopCount }
      ∧ (∀ later : OnionValidator,
          later.CheckOnionReceived v.OnionHopCount = false →
            (ScheduledCheck.mk (t + self.m_onionTimeout) v.OnionHopCount).fire later
              = [Event.abortOnion (t + self.m_onionTimeout)])
      ∧ (∀ later : OnionValidator,
          later.CheckOnionReceived v.OnionHopCount = true →
            (ScheduledCheck.mk (t + self.m_onionTimeout) v.OnionHopCount).fire later = [])
      ∧ scheduledChecks t (SendSegment self v remote packet false).events = [] := by
  have h0 : self.f_mss ≠ 0 := by omega
  obtain ⟨q1, h1⟩ := SendSegment_events self v remote packet true hmss
  obtain ⟨q2, h2⟩ := SendSegment_events self v remote packet false hmss
  refine ⟨?_, ?_, ?_, ?_, ?_⟩
  · rw [h1]; rfl
  · unfold SendSegment
    simp only [if_neg h0]
    split <;> rfl
  · intro later hl
    simp [ScheduledCheck.fire, CheckSentOnion, hl]
  · intro later hl
    simp [ScheduledCheck.fire, CheckSentOnion, hl]
  · rw [h2]; rfl

/-- C8 at a concrete call: sent at time 50 with timeout 100 and hop count 3, the
check is queued for time 150 and records one abort there. -/
theorem C8_watchdog_witness :
    0 < stubNode.f_mss
      ∧ scheduledChecks 50
          (SendSegment stubNode stubValidator (167837698, 4242) ⟨[1, 2, 3], none⟩ true).events
        = [⟨150, 3⟩]
      ∧ (ScheduledCheck.mk 150 3).fire stubValidator = [Event.abortOnion 150]
      ∧ (ScheduledCheck.mk 150 3).fire doneValidator = [] :=
  ⟨by decide,
    (C8_watchdog stubNode stubValidator (167837698, 4242) ⟨[1, 2, 3], none⟩ 50 (by decide)).1,
    by decide, by decide⟩

/-! ### Padding -/

theorem outer_layer_len_exact (m p : Nat) (h : m + p < 2 ^ 31) :
    toInt32 (toSizeT (toInt32 m) + p) = ((m + p : Nat) : Int) := by
  unfold toInt32 toSizeT
  omega

theorem padding_length_exact (t i : Nat) (ht : t < 2 ^ 31) (hi : i ≤ t) :
    (toSizeT ((t : Nat) : Int) + 2 ^ 64 - i % 2 ^ 64) % 2 ^ 64 = t - i := by
  unfold toSizeT
  omega

theorem ProcessOnionHead_padded (om : OnionManager) (h : OnionHead) (pad : List Byte)
    (hpad : h.padding = some pad)
    (hfit : (om.PeelOnion h.onion_message).innerLayer.length
              ≤ h.onion_message.length + pad.length)
    (hint : h.onion_message.length + pad.length < 2 ^ 31) :
    ProcessOnionHead om h
      = some (DeserializeIpv4ToInt (om.PeelOnion h.onion_message).nextHopIP,
          { onionid := h.onionid
            onion_message := (om.PeelOnion h.onion_message).innerLayer
            padding := some (List.replicate
              (h.onion_message.length + pad.length
                - (om.PeelOnion h.onion_message).innerLayer.length) paddingChar) }) := by
  have e1 := outer_layer_len_exact h.onion_message.length pad.length hint
  have e2 := padding_length_exact _ _ hint hfit
  have e3 : h.onion_message.length + pad.length
      - (om.PeelOnion h.onion_message).innerLayer.length ≤ stringMaxSize := by
    unfold stringMaxSize
    omega
  simp only [ProcessOnionHead, hpad, e1, e2, e3, if_true]

theorem ProcessOnionHead_unpadded (om : OnionManager) (h : OnionHead)
    (hpad : h.padding = none) :
    ProcessOnionHead om h
      = some (DeserializeIpv4ToInt (om.PeelOnion h.onion_message).nextHopIP,
          { onionid := h.onionid
            onion_message := (om.PeelOnion h.onion_message).innerLayer
            padding := none }) := by
  simp only [ProcessOnionHead, hpad]

theorem outer_layer_len_overflow (m p : Nat) (h : m + p = 2 ^ 31) :
    toInt32 (toSizeT (toInt32 m) + p) = -2 ^ 31 := by
  unfold toInt32 toSizeT
  omega

theorem padding_length_overflow (i : Nat) (hi : i ≤ 2 ^ 31) :
    ¬ (toSizeT (-2 ^ 31) + 2 ^ 64 - i % 2 ^ 64) % 2 ^ 64 ≤ stringMaxSize := by
  unfold toSizeT stringMaxSize
  omega

/-- When onion message and padding together have `2 ^ 31` bytes the `int`
`outer_layer_len` is `-2 ^ 31`, the padding length computed in `size_t` is beyond
what a string accepts, and the construction of the padding throws. -/
theorem ProcessOnionHead_int_overflow (om : OnionManager) (h : OnionHead) (pad : List Byte)
    (hpad : h.padding = some pad)
    (hfit : (om.PeelOnion h.onion_message).innerLayer.length
              ≤ h.onion_message.length + pad.length)
    (hlen : h.onion_message.length + pad.length = 2 ^ 31) :
    ProcessOnionHead om h = none := by
  have e1 := outer_layer_len_overflow h.onion_message.length pad.length hlen
  have e2 := padding_length_overflow (om.PeelOnion h.onion_message).innerLayer.length
    (by omega)
  simp only [ProcessOnionHead, hpad, e1, if_neg e2]

theorem hugeOnion_length : hugeOnion.length = 2147483648 := List.length_replicate _ _

theorem hugeHead_length :
    hugeHead.onion_message.length + ([] : List Byte).length = 2 ^ 31 := by
  have h1 : hugeHead.onion_message = hugeOnion := rfl
  rw [h1, hugeOnion_length, List.length_nil]
  rfl

/-- C4 as stated fails for a head whose onion message has `2 ^ 31` bytes: the
padding field is present and the (empty) inner layer is no longer than onion
message plus padding, but `int outer_layer_len` holds `-2 ^ 31`, the padding
length wraps around in `size_t` and `ProcessOnionHead` throws instead of leaving
a head with the old total length. -/
theorem C4_counterexample_int_length :
    hugeHead.padding = some []
      ∧ hugeHead.onion_message.length + ([] : List Byte).length = 2 ^ 31
      ∧ (emptyingManager.PeelOnion hugeHead.onion_message).innerLayer.length
          ≤ hugeHead.onion_message.length + ([] : List Byte).length
      ∧ ProcessOnionHead emptyingManager hugeHead = none :=
  ⟨rfl, hugeHead_length, Nat.zero_le _,
    ProcessOnionHead_int_overflow emptyingManager hugeHead [] rfl (Nat.zero_le _)
      hugeHead_length⟩

/-- C4 (amended). Padding invariant: for a head that has a padding field, whose
onion message and padding together are shorter than `2 ^ 31` bytes (the range of
the `int outer_layer_len`), and a peel result whose inner layer is no longer than
the old onion message plus the old padding, `ProcessOnionHead` returns, and the
new onion message is the inner layer, the padding field is still there, and the
two new lengths add up to the two old lengths. -/
theorem C4_padding_invariant (om : OnionManager) (h : OnionHead) (pad : List Byte)
    (hpad : h.padding = some pad)
    (hfit : (om.PeelOnion h.onion_message).innerLayer.length
              ≤ h.onion_message.length + pad.length)
    (hint : h.onion_message.length + pad.length < 2 ^ 31) :
    ∃ ip h1 pad1, ProcessOnionHead om h = some (ip, h1)
      ∧ h1.onion_message = (om.PeelOnion h.onion_message).innerLayer
      ∧ h1.padding = some pad1
      ∧ h1.onion_message.length + pad1.length = h.onion_message.length + pad.length := by
  refine ⟨_, _, _, ProcessOnionHead_padded om h pad hpad hfit hint, rfl, rfl, ?_⟩
  simp only [List.length_replicate]
  omega

/-- C4 at a concrete head: a 6-byte onion with 4 bytes of padding, peeled to a
4-byte inner layer, leaves 4 + 6 bytes. -/
theorem C4_padding_invariant_witness :
    ∃ ip h1 pad1, ProcessOnionHead stubManager ⟨8, [1, 2, 3, 4, 5, 6], some [48, 48, 48, 48]⟩
        = some (ip, h1)
      ∧ h1.onion_message
          = (stubManager.PeelOnion (OnionHead.mk 8 [1, 2, 3, 4, 5, 6]
              (some [48, 48, 48, 48])).onion_message).innerLayer
      ∧ h1.padding = some pad1
      ∧ h1.onion_message.length + pad1.length
          = (OnionHead.mk 8 [1, 2, 3, 4, 5, 6] (some [48, 48, 48, 48])).onion_message.length
            + [(48 : Byte), 48, 48, 48].length :=
  C4_padding_invariant stubManager ⟨8, [1, 2, 3, 4, 5, 6], some [48, 48, 48, 48]⟩
    [48, 48, 48, 48] rfl (by decide) (by decide)

/-- The concrete head, evaluated: next hop 10.1.0.2 and six bytes of `'0'`. -/
theorem ProcessOnionHead_goodEnvelope :
    ProcessOnionHead stubManager ⟨8, [1, 2, 3, 4, 5, 6], some [48, 48, 48, 48]⟩
      = some (167837698, ⟨8, [3, 4, 5, 6], some [48, 48, 48, 48, 48, 48]⟩) := by
  decide

/-! ### Aggregation along a path -/

theorem toInt32_add_left (a v : Int) : toInt32 (toInt32 a + v) = toInt32 (a + v) := by
  unfold toInt32
  omega

theorem toInt32_of_int (a : Int) (lo : -2 ^ 31 ≤ a) (hi : a < 2 ^ 31) : toInt32 a = a := by
  unfold toInt32
  omega

theorem ProcessOnionBody_none (v : Int) (b : OnionBody) (h : b.aggregatedvalue = none) :
    ProcessOnionBody v b = b := by
  simp [ProcessOnionBody, h]

theorem ProcessOnionBody_some (v a : Int) (b : OnionBody) (h : b.aggregatedvalue = some a) :
    ProcessOnionBody v b = ⟨some (toInt32 (a + v))⟩ := by
  simp [ProcessOnionBody, h, toInt32_add_left]

theorem alongPath_none (b : OnionBody) (h : b.aggregatedvalue = none) (vs : List Int) :
    alongPath b vs = b := by
  induction vs with
  | nil => rfl
  | cons v vs ih => simp [alongPath, ProcessOnionBody_none v b h, ih]

theorem bodiesAlongPath_none (b : OnionBody) (h : b.aggregatedvalue = none) (vs : List Int) :
    ∀ x ∈ bodiesAlongPath b vs, x = b := by
  induction vs with
  | nil => simp [bodiesAlongPath]
  | cons v vs ih =>
    intro x hx
    simp only [bodiesAlongPath, ProcessOnionBody_none v b h, List.mem_cons] at hx
    rcases hx with hx | hx
    · exact hx
    · exact ih x hx

theorem alongPath_some (vs : List Int) (hvs : vs ≠ []) (a : Int) (b : OnionBody)
    (h : b.aggregatedvalue = some a) :
    alongPath b vs = ⟨some (toInt32 (a + vs.sum))⟩ := by
  induction vs generalizing a b with
  | nil => exact absurd rfl hvs
  | cons v vs ih =>
    rw [alongPath, ProcessOnionBody_some v a b h]
    cases vs with
    | nil => simp [alongPath]
    | cons w ws =>
      rw [ih (by simp) (toInt32 (a + v)) _ rfl, toInt32_add_left]
      simp [Int.add_assoc]

theorem bodiesAlongPath_isSome (vs : List Int) (b : OnionBody) :
    ∀ x ∈ bodiesAlongPath b vs, x.aggregatedvalue.isSome = b.aggregatedvalue.isSome := by
  induction vs generalizing b with
  | nil => simp [bodiesAlongPath]
  | cons v vs ih =>
    have hstep : (ProcessOnionBody v b).aggregatedvalue.isSome = b.aggregatedvalue.isSome := by
      cases hb : b.aggregatedvalue with
      | none => simp [ProcessOnionBody_none v b hb, hb]
      | some a => simp [ProcessOnionBody_some v a b hb]
    intro x hx
    simp only [bodiesAlongPath, List.mem_cons] at hx
    rcases hx with hx | hx
    · rw [hx, hstep]
    · rw [ih _ x hx, hstep]

/-- C5 as stated fails: with aggregate `2147483647` and one hop sensing `1`, the
value stored back is the `int` `-2147483648`, not `2147483647 + 1`. -/
theorem C5_counterexample_int_overflow :
    (alongPath ⟨some 2147483647⟩ [1]).aggregatedvalue = some (-2147483648)
      ∧ (alongPath ⟨some 2147483647⟩ [1]).aggregatedvalue ≠ some (2147483647 + 1) := by
  decide

/-- C5 (amended). Along every path the aggregate field is present exactly when it
was present initially, at every hop and at the end; an absent aggregate leaves the
body unchanged at every hop; a present aggregate `a` ends as `a + v1 + ... + vn`
provided `a` and every running sum `a + v1 + ... + vk` is an `int` value (no
overflow of the `int` addition at any hop). -/
theorem C5_aggregate_along_path (b : OnionBody) (vs : List Int) :
    ((alongPath b vs).aggregatedvalue.isSome = b.aggregatedvalue.isSome)
      ∧ (∀ x ∈ bodiesAlongPath b vs, x.aggregatedvalue.isSome = b.aggregatedvalue.isSome)
      ∧ (b.aggregatedvalue = none →
          alongPath b vs = b ∧ ∀ x ∈ bodiesAlongPath b vs, x = b)
      ∧ (∀ a, b.aggregatedvalue = some a →
          (∀ k, k ≤ vs.length →
            -2 ^ 31 ≤ a + (vs.take k).sum ∧ a + (vs.take k).sum < 2 ^ 31) →
          (alongPath b vs).aggregatedvalue = some (a + vs.sum)) := by
  refine ⟨?_, bodiesAlongPath_isSome vs b, ?_, ?_⟩
  · cases hb : b.aggregatedvalue with
    | none => rw [alongPath_none b hb, hb]
    | some a =>
      cases vs with
      | nil => simp [alongPath, hb]
      | cons v vs => rw [alongPath_some _ (by simp) a b hb]; rfl
  · intro hb
    exact ⟨alongPath_none b hb vs, bodiesAlongPath_none b hb vs⟩
  · intro a hb hrange
    cases vs with
    | nil => simp [alongPath, hb]
    | cons v vs =>
      have h := hrange (v :: vs).length (Nat.le_refl _)
      rw [List.take_length] at h
      rw [alongPath_some _ (by simp) a b hb, toInt32_of_int _ h.1 h.2]

/-- The aggregate 10 after hops sensing 5, 7 and 3 is 25; an absent aggregate
stays absent. -/
theorem alongPath_three_hops :
    alongPath ⟨some 10⟩ [5, 7, 3] = ⟨some 25⟩ ∧ alongPath ⟨none⟩ [5, 7, 3] = ⟨none⟩ := by
  decide

/-! ### Receiving an envelope -/

theorem stubWire_reads_back :
    stubGetData (stubSetData staleEnvelope) = staleEnvelope
      ∧ stubGetData (stubSetData paddedEnvelope) = paddedEnvelope
      ∧ stubGetData (stubSetData goodEnvelope) = goodEnvelope := by
  decide

theorem RecvSeg_events (self : Wsn_node) (p : Packet) (sender : Nat) :
    (RecvSeg self p sender).events = [] ∨ (RecvSeg self p sender).events = [Event.close] := by
  unfold RecvSeg
  split
  · exact Or.inr rfl
  · dsimp only
    split <;> split <;> first | exact Or.inr rfl | exact Or.inl rfl

/-- `RecvSeg` writes the reassembly fields only. -/
theorem RecvSeg_frame (self : Wsn_node) (p : Packet) (sender : Nat) :
    (RecvSeg self p sender).node
      = { self with
          f_pendingPacket := (RecvSeg self p sender).node.f_pendingPacket
          f_segmentSize := (RecvSeg self p sender).node.f_segmentSize
          f_receivingAddress := (RecvSeg self p sender).node.f_receivingAddress } := by
  unfold RecvSeg
  split
  · rfl
  · dsimp only
    split <;> split <;> rfl

/-- The run of `ReceivePacket` on a completely received envelope with a stale
onion id. -/
theorem ReceivePacket_ghost (self : SensorNode) (v : OnionValidator) (om : OnionManager)
    (sw : Serialization) (now : Nat) (chunk : Packet) (sender : Nat) (p : Packet)
    (hrecv : (RecvSegment self.toWsn_node chunk sender).packet = some p)
    (hstale : (sw.GetData p.bytes).o_head.onionid ≠ v.GetOnionSeq) :
    ReceivePacket self v om sw now chunk sender
      = ⟨(RecvSegment self.toWsn_node chunk sender).events
            ++ [Event.notifyRx p,
                Event.logGhost (sw.GetData p.bytes).o_head.onionid self.m_address now],
          some { self with
            toWsn_node := { (RecvSegment self.toWsn_node chunk sender).node with
              o_sequenceNum := (sw.GetData p.bytes).o_head.onionid } }⟩ := by
  have haddr : (RecvSegment self.toWsn_node chunk sender).node.m_address = self.m_address := by
    unfold RecvSegment
    rw [RecvSeg_frame]
  unfold ReceivePacket
  simp only [hrecv, if_neg hstale, haddr]

theorem RecvSegment_events_quiet (self : Wsn_node) (p : Packet) (sender : Nat) (t : Nat) :
    sendSegmentCalls (RecvSegment self p sender).events = []
      ∧ sentPackets (RecvSegment self p sender).events = []
      ∧ scheduledChecks t (RecvSegment self p sender).events = []
      ∧ ∀ e ∈ (RecvSegment self p sender).events, e.ofForward = false := by
  unfold RecvSegment
  rcases RecvSeg_events self p sender with h | h <;> rw [h] <;> simp [sendSegmentCalls,
    sentPackets, scheduledChecks, Event.ofForward]

theorem sendSegmentCalls_append (xs ys : List Event) :
    sendSegmentCalls (xs ++ ys) = sendSegmentCalls xs ++ sendSegmentCalls ys := by
  induction xs with
  | nil => rfl
  | cons e xs ih => cases e <;> simp [sendSegmentCalls, ih]

theorem RecvSeg_events_of_some (self : Wsn_node) (p : Packet) (sender : Nat) (out : Packet)
    (h : (RecvSeg self p sender).packet = some out) :
    (RecvSeg self p sender).events = [Event.close] := by
  unfold RecvSeg at h ⊢
  split
  · rfl
  · rename_i s_num hs
    simp only [hs] at h
    dsimp only at h ⊢
    split <;> split <;> first | rfl | (simp_all)

theorem RecvSeg_events_of_none (self : Wsn_node) (p : Packet) (sender : Nat)
    (h : (RecvSeg self p sender).packet = none) :
    (RecvSeg self p sender).events = [] := by
  unfold RecvSeg at h ⊢
  split
  · rename_i hs
    simp [hs] at h
  · rename_i s_num hs
    simp only [hs] at h
    dsimp only at h ⊢
    split <;> split <;> first | rfl | (simp_all)

/-- A read that does not complete a message only updates the reassembly buffer. -/
theorem ReceivePacket_incomplete (self : SensorNode) (v : OnionValidator) (om : OnionManager)
    (sw : Serialization) (now : Nat) (chunk : Packet) (sender : Nat)
    (hrecv : (RecvSegment self.toWsn_node chunk sender).packet = none) :
    ReceivePacket self v om sw now chunk sender
      = ⟨[], some { self with toWsn_node := (RecvSegment self.toWsn_node chunk sender).node }⟩ := by
  have hev : (RecvSegment self.toWsn_node chunk sender).events = [] :=
    RecvSeg_events_of_none _ _ _ hrecv
  unfold ReceivePacket
  simp only [hrecv, hev]

/-- The run of the read callback over the chunks of a stale envelope: all calls
but the last return without an event, the last one drops the envelope. -/
theorem receiveAll_ghost (v : OnionValidator) (om : OnionManager) (sw : Serialization)
    (now sender : Nat) (out : Packet)
    (hstale : (sw.GetData out.bytes).o_head.onionid ≠ v.GetOnionSeq) (cs : List Packet) :
    ∀ self : SensorNode, cs ≠ [] →
      (feed self.toWsn_node sender cs).2 = List.replicate (cs.length - 1) none ++ [some out] →
      receiveAll self v om sw now sender cs
        = ⟨[Event.close, Event.notifyRx out,
              Event.logGhost (sw.GetData out.bytes).o_head.onionid self.m_address now],
            some { self with
              toWsn_node := { (feed self.toWsn_node sender cs).1 with
                o_sequenceNum := (sw.GetData out.bytes).o_head.onionid } }⟩ := by
  induction cs with
  | nil => intro _ h; exact absurd rfl h
  | cons c cs ih =>
    intro self _ hfeed
    cases cs with
    | nil =>
      have hpk : (RecvSegment self.toWsn_node c sender).packet = some out := by
        simpa [feed, RecvSegment] using hfeed
      have hev : (RecvSegment self.toWsn_node c sender).events = [Event.close] :=
        RecvSeg_events_of_some _ _ _ out hpk
      simp only [receiveAll, ReceivePacket_ghost self v om sw now c sender out hpk hstale, hev]
      rfl
    | cons c1 rest =>
      have hsplit : (RecvSeg self.toWsn_node c sender).packet
            :: (feed (RecvSeg self.toWsn_node c sender).node sender (c1 :: rest)).2
          = none :: (List.replicate ((c1 :: rest).length - 1) none ++ [some out]) := by
        have h := hfeed
        simp only [feed] at h ⊢
        rw [h]
        rfl
      have hpk : (RecvSegment self.toWsn_node c sender).packet = none :=
        (List.cons.inj hsplit).1
      have htail := (List.cons.inj hsplit).2
      have haddr : (RecvSegment self.toWsn_node c sender).node.m_address = self.m_address := by
        unfold RecvSegment
        rw [RecvSeg_frame]
      have hih := ih { self with toWsn_node := (RecvSegment self.toWsn_node c sender).node }
        (by simp) htail
      rw [receiveAll, ReceivePacket_incomplete self v om sw now c sender hpk]
      simp only [hih, List.nil_append, haddr]
      rfl

/-- A whole delivery completes at its last chunk: earlier reads return `NULL`, the
last returns the message made of the chunks' bytes; the node is left unchanged by
an untagged unit and with a cleared buffer by tagged chunks. -/
theorem wholeDelivery_feed (self : Wsn_node) (sender : Nat) (cs : List Packet) (L : Nat)
    (h : wholeDelivery self cs L) :
    cs ≠ [] ∧ ∃ out, (feed self sender cs).2 = List.replicate (cs.length - 1) none ++ [some out]
      ∧ out.bytes = allBytes cs
      ∧ ((∃ c, cs = [c] ∧ c.segNum = none) → (feed self sender cs).1 = self)
      ∧ ((∀ c ∈ cs, c.segNum = some L) → (feed self sender cs).1 = cleared self) := by
  rcases h with ⟨c, hc, htag⟩ | ⟨hempty, hne, hcs, hsum, hL⟩
  · subst hc
    refine ⟨by simp, c, ?_, ?_, ?_, ?_⟩
    · rw [feed_single_untagged self sender c htag]; rfl
    · simp [allBytes]
    · intro _
      rw [feed_single_untagged self sender c htag]
    · intro hall
      have := hall c (by simp)
      rw [htag] at this
      exact absurd this (by simp)
  · obtain ⟨out, hfeed, hout⟩ := feed_from_empty self sender L cs hempty hne hcs hsum hL
    refine ⟨hne, out, by rw [hfeed], hout, ?_, ?_⟩
    · rintro ⟨c, hc, htag⟩
      subst hc
      have := (hcs c (by simp)).1
      rw [htag] at this
      exact absurd this (by simp)
    · intro _
      rw [hfeed]

/-- A whole delivery is again a whole delivery for the node it leaves behind,
whatever else is written to the fields outside the buffer. -/
theorem wholeDelivery_again (self next : Wsn_node) (sender : Nat) (cs : List Packet) (L : Nat)
    (h : wholeDelivery self cs L)
    (hnext : next.f_pendingPacket = (feed self sender cs).1.f_pendingPacket) :
    wholeDelivery next cs L := by
  obtain ⟨_, out, _, _, _, hclr⟩ := wholeDelivery_feed self sender cs L h
  rcases h with hu | ⟨hempty, hne, hcs, hsum, hL⟩
  · exact Or.inl hu
  · refine Or.inr ⟨?_, hne, hcs, hsum, hL⟩
    rw [hnext, hclr (fun c hc => (hcs c hc).1)]
    rfl

/-- The run of the read callback over a whole delivery of a stale envelope. -/
theorem receiveAll_stale (self : SensorNode) (v : OnionValidator) (om : OnionManager)
    (sw : Serialization) (now sender L : Nat) (cs : List Packet)
    (hwhole : wholeDelivery self.toWsn_node cs L)
    (hstale : (sw.GetData (allBytes cs)).o_head.onionid ≠ v.GetOnionSeq) :
    ∃ out, out.bytes = allBytes cs
      ∧ receiveAll self v om sw now sender cs
        = ⟨[Event.close, Event.notifyRx out,
              Event.logGhost (sw.GetData (allBytes cs)).o_head.onionid self.m_address now],
            some { self with
              toWsn_node := { (feed self.toWsn_node sender cs).1 with
                o_sequenceNum := (sw.GetData (allBytes cs)).o_head.onionid } }⟩ := by
  obtain ⟨hne, out, hfeed, hout, _, _⟩ := wholeDelivery_feed self.toWsn_node sender cs L hwhole
  refine ⟨out, hout, ?_⟩
  rw [← hout] at hstale ⊢
  exact receiveAll_ghost v om sw now sender out hstale cs self hne hfeed

/-- The state a whole delivery of a stale envelope leaves is a fixed point of
delivering it again. -/
theorem receiveAll_stale_again (self : SensorNode) (v : OnionValidator) (om : OnionManager)
    (sw : Serialization) (later sender L : Nat) (cs : List Packet)
    (hwhole : wholeDelivery self.toWsn_node cs L)
    (hstale : (sw.GetData (allBytes cs)).o_head.onionid ≠ v.GetOnionSeq) :
    wholeDelivery
        ({ self with
            toWsn_node := { (feed self.toWsn_node sender cs).1 with
              o_sequenceNum := (sw.GetData (allBytes cs)).o_head.onionid } } : SensorNode).toWsn_node
        cs L
      ∧ (receiveAll
          { self with
            toWsn_node := { (feed self.toWsn_node sender cs).1 with
              o_sequenceNum := (sw.GetData (allBytes cs)).o_head.onionid } }
          v om sw later sender cs).state
        = some { self with
            toWsn_node := { (feed self.toWsn_node sender cs).1 with
              o_sequenceNum := (sw.GetData (allBytes cs)).o_head.onionid } } := by
  have hnext := wholeDelivery_again self.toWsn_node
    { (feed self.toWsn_node sender cs).1 with
        o_sequenceNum := (sw.GetData (allBytes cs)).o_head.onionid } sender cs L hwhole rfl
  refine ⟨hnext, ?_⟩
  obtain ⟨_, _, hrun⟩ := receiveAll_stale
    { self with
      toWsn_node := { (feed self.toWsn_node sender cs).1 with
        o_sequenceNum := (sw.GetData (allBytes cs)).o_head.onionid } }
    v om sw later sender L cs hnext hstale
  rw [hrun]
  obtain ⟨_, _, _, _, hunit, hclr⟩ := wholeDelivery_feed _ sender cs L hnext
  rcases hwhole with hu | ⟨_, _, hcs, _, _⟩
  · simp only [hunit hu]
  · obtain ⟨_, _, _, _, _, hclr0⟩ := wholeDelivery_feed self.toWsn_node sender cs L
      (Or.inr ⟨by assumption, by assumption, hcs, by assumption, by assumption⟩)
    have e1 := hclr (fun c hc => (hcs c hc).1)
    have e0 := hclr0 (fun c hc => (hcs c hc).1)
    simp only [e1]
    simp only [e0]
    rfl

/-- C6. Ghost onions are never forwarded: for every completely received envelope
(one untagged unit, or tagged chunks reassembled from an empty buffer) whose
onion id differs from the one the validator expects, in every node state, the
read callback `ReceivePacket` makes no `SendSegment` call, writes nothing to a
socket, schedules no watchdog check, does not notify the validator and records
no onion send/receive telemetry: its only events are the socket close of
`RecvSeg`, the receive notification and the diagnostic log.  The run ends in a
node state, and delivering the same envelope again from that state, at any later
time, again makes none of these calls. -/
theorem C6_ghost_never_forwarded (self : SensorNode) (v : OnionValidator)
    (om : OnionManager) (sw : Serialization) (now sender L : Nat) (cs : List Packet)
    (hwhole : wholeDelivery self.toWsn_node cs L)
    (hstale : (sw.GetData (allBytes cs)).o_head.onionid ≠ v.GetOnionSeq) :
    sendSegmentCalls (receiveAll self v om sw now sender cs).events = []
      ∧ sentPackets (receiveAll self v om sw now sender cs).events = []
      ∧ scheduledChecks now (receiveAll self v om sw now sender cs).events = []
      ∧ (∀ e ∈ (receiveAll self v om sw now sender cs).events, e.ofForward = false)
      ∧ (∃ out, out.bytes = allBytes cs
          ∧ (receiveAll self v om sw now sender cs).events
            = [Event.close, Event.notifyRx out,
                Event.logGhost (sw.GetData (allBytes cs)).o_head.onionid self.m_address now])
      ∧ ∃ s1, (receiveAll self v om sw now sender cs).state = some s1
          ∧ ∀ later,
            sendSegmentCalls (receiveAll s1 v om sw later sender cs).events = []
            ∧ sentPackets (receiveAll s1 v om sw later sender cs).events = []
            ∧ scheduledChecks later (receiveAll s1 v om sw later sender cs).events = []
            ∧ ∀ e ∈ (receiveAll s1 v om sw later sender cs).events, e.ofForward = false := by
  have quiet : ∀ (out : Packet) (i a t : Nat),
      sendSegmentCalls [Event.close, Event.notifyRx out, Event.logGhost i a t] = []
        ∧ sentPackets [Event.close, Event.notifyRx out, Event.logGhost i a t] = []
        ∧ scheduledChecks t [Event.close, Event.notifyRx out, Event.logGhost i a t] = []
        ∧ ∀ e ∈ [Event.close, Event.notifyRx out, Event.logGhost i a t],
            e.ofForward = false := by
    intro out i a t
    refine ⟨rfl, rfl, rfl, ?_⟩
    intro e he
    simp only [List.mem_cons, List.mem_singleton, List.not_mem_nil, or_false] at he
    rcases he with h | h | h <;> subst h <;> rfl
  obtain ⟨out, hout, hrun⟩ := receiveAll_stale self v om sw now sender L cs hwhole hstale
  obtain ⟨q1, q2, q3, q4⟩ := quiet out (sw.GetData (allBytes cs)).o_head.onionid
    self.m_address now
  rw [hrun]
  refine ⟨q1, q2, q3, q4, ⟨out, hout, rfl⟩, _, rfl, ?_⟩
  intro later
  obtain ⟨hnext, _⟩ := receiveAll_stale_again self v om sw later sender L cs hwhole hstale
  obtain ⟨out2, _, hrun2⟩ := receiveAll_stale _ v om sw later sender L cs hnext hstale
  rw [hrun2]
  exact quiet out2 _ _ later

/-- C6 at a concrete delivery: the stale envelope 3 reaches, as one untagged unit,
a node whose validator expects 8. -/
theorem C6_ghost_never_forwarded_witness :
    wholeDelivery stubSensor.toWsn_node [⟨stubSetData staleEnvelope, none⟩] 0
      ∧ (stubWire.GetData (allBytes [⟨stubSetData staleEnvelope, none⟩])).o_head.onionid
          ≠ stubValidator.GetOnionSeq
      ∧ sendSegmentCalls (receiveAll stubSensor stubValidator stubManager stubWire 50 167837698
          [⟨stubSetData staleEnvelope, none⟩]).events = []
      ∧ (receiveAll stubSensor stubValidator stubManager stubWire 50 167837698
          [⟨stubSetData staleEnvelope, none⟩]).events
          = [Event.close, Event.notifyRx ⟨stubSetData staleEnvelope, none⟩,
              Event.logGhost 3 167837697 50] :=
  ⟨Or.inl ⟨_, rfl, rfl⟩, by decide,
    (C6_ghost_never_forwarded stubSensor stubValidator stubManager stubWire 50 167837698 0
      [⟨stubSetData staleEnvelope, none⟩] (Or.inl ⟨_, rfl, rfl⟩) (by decide)).1,
    by decide⟩

/-- C7 as stated fails: the stale envelope 3 delivered to a node whose stored
onion sequence number is 8 leaves it with the stored number 3. -/
theorem C7_counterexample_sequence_number_overwritten :
    (stubWire.GetData (stubSetData staleEnvelope)).o_head.onionid ≠ stubValidator.GetOnionSeq
      ∧ stubSensor.o_sequenceNum = 8
      ∧ (ReceivePacket stubSensor stubValidator stubManager stubWire 50
          ⟨stubSetData staleEnvelope, none⟩ 167837698).state
        = some { stubSensor with o_sequenceNum := 3 }
      ∧ (ReceivePacket stubSensor stubValidator stubManager stubWire 50
          ⟨stubSetData staleEnvelope, none⟩ 167837698).state ≠ some stubSensor := by
  decide

/-- C7 (amended). Ghost-drop overwrites the stored sequence number and nothing
else: delivering a stale envelope leaves the node with `o_sequenceNum` set to the
envelope's onion id; when the envelope arrived as one untagged unit every other
field is as before; when it arrived in tagged chunks the reassembly fields are
left cleared (no pending packet, nothing remaining, any-address) and every other
field is as before.  Delivering the envelope a second time, at any later time,
changes nothing more. -/
theorem C7_ghost_state (self : SensorNode) (v : OnionValidator)
    (om : OnionManager) (sw : Serialization) (now sender L : Nat) (cs : List Packet)
    (hwhole : wholeDelivery self.toWsn_node cs L)
    (hstale : (sw.GetData (allBytes cs)).o_head.onionid ≠ v.GetOnionSeq) :
    ((∃ c, cs = [c] ∧ c.segNum = none) →
        (receiveAll self v om sw now sender cs).state
          = some { self with o_sequenceNum := (sw.GetData (allBytes cs)).o_head.onionid })
      ∧ ((∀ c ∈ cs, c.segNum = some L) →
        (receiveAll self v om sw now sender cs).state
          = some { self with
              f_pendingPacket := none
              f_segmentSize := 0
              f_receivingAddress := Ipv4Any
              o_sequenceNum := (sw.GetData (allBytes cs)).o_head.onionid })
      ∧ ∃ s1, (receiveAll self v om sw now sender cs).state = some s1
          ∧ s1.o_sequenceNum = (sw.GetData (allBytes cs)).o_head.onionid
          ∧ s1.o_hopCount = self.o_hopCount
          ∧ ∀ later, (receiveAll s1 v om sw later sender cs).state = some s1 := by
  obtain ⟨out, _, hrun⟩ := receiveAll_stale self v om sw now sender L cs hwhole hstale
  obtain ⟨_, _, _, _, hunit, hclr⟩ := wholeDelivery_feed self.toWsn_node sender cs L hwhole
  rw [hrun]
  refine ⟨?_, ?_, _, rfl, rfl, ?_, ?_⟩
  · intro hu
    simp only [hunit hu]
  · intro htag
    simp only [hclr htag]
    rfl
  · rcases hwhole with hu | ⟨_, _, hcs, _, _⟩
    · simp only [hunit hu]
    · simp only [hclr (fun c hc => (hcs c hc).1)]
      rfl
  · intro later
    exact (receiveAll_stale_again self v om sw later sender L cs hwhole hstale).2

/-- C7 at a concrete delivery: the stale envelope 3, arriving as one untagged
unit, leaves `stubSensor` with the stored sequence number 3 and nothing else
changed, also when delivered a second time. -/
theorem C7_ghost_state_witness :
    wholeDelivery stubSensor.toWsn_node [⟨stubSetData staleEnvelope, none⟩] 0
      ∧ (stubWire.GetData (allBytes [⟨stubSetData staleEnvelope, none⟩])).o_head.onionid
          ≠ stubValidator.GetOnionSeq
      ∧ (receiveAll stubSensor stubValidator stubManager stubWire 50 167837698
            [⟨stubSetData staleEnvelope, none⟩]).state
          = some { stubSensor with
              o_sequenceNum := (stubWire.GetData
                (allBytes [⟨stubSetData staleEnvelope, none⟩])).o_head.onionid }
      ∧ (receiveAll { stubSensor with o_sequenceNum := 3 } stubValidator stubManager stubWire
            60 167837698 [⟨stubSetData staleEnvelope, none⟩]).state
          = some { stubSensor with o_sequenceNum := 3 } :=
  ⟨Or.inl ⟨_, rfl, rfl⟩, by decide,
    (C7_ghost_state stubSensor stubValidator stubManager stubWire 50 167837698 0
      [⟨stubSetData staleEnvelope, none⟩] (Or.inl ⟨_, rfl, rfl⟩) (by decide)).1
      ⟨_, rfl, rfl⟩,
    by decide⟩

/-! ### Forwarding -/

theorem SendSegment_calls (self : Wsn_node) (v : OnionValidator) (remote : Nat × Nat)
    (packet : Packet) (b_onion : Bool) :
    sendSegmentCalls (SendSegment self v remote packet b_onion).events
      = [(remote.1, remote.2, packet, b_onion)] := by
  unfold SendSegment
  dsimp only
  split
  · rfl
  · split <;> cases b_onion <;> rfl

theorem RecvSegment_port (self : Wsn_node) (p : Packet) (sender : Nat) :
    (RecvSegment self p sender).node.m_port = self.m_port := by
  unfold RecvSegment
  rw [RecvSeg_frame]

/-- C9 as stated fails: an envelope with the expected onion id and a padding
field, for which the peel collaborator returns an inner layer longer than the
onion message plus the padding, is completely received, and `ReceivePacket` makes
no `SendSegment` call: the padding length wraps around in `size_t` and the
construction of the padding string throws. -/
theorem C9_counterexample_inner_layer_too_long :
    (RecvSegment stubSensor.toWsn_node ⟨stubSetData paddedEnvelope, none⟩ 167837698).packet
        = some ⟨stubSetData paddedEnvelope, none⟩
      ∧ (stubWire.GetData (stubSetData paddedEnvelope)).o_head.onionid
          = stubValidator.GetOnionSeq
      ∧ (growingManager.PeelOnion paddedEnvelope.o_head.onion_message).innerLayer
          = [1, 2, 0, 0, 0]
      ∧ ProcessOnionHead growingManager paddedEnvelope.o_head = none
      ∧ sendSegmentCalls (ReceivePacket stubSensor stubValidator growingManager stubWire 50
          ⟨stubSetData paddedEnvelope, none⟩ 167837698).events = []
      ∧ (ReceivePacket stubSensor stubValidator growingManager stubWire 50
          ⟨stubSetData paddedEnvelope, none⟩ 167837698).state = none := by
  decide

/-- C9 (amended). Per-hop forward: for every completely received envelope whose
onion id equals the validator's expected id, with the peel collaborator returning
`(next_hop_address, inner_layer)` where, if the head has a padding field, the
inner layer is no longer than the onion message plus the padding (lengths within
the `int` range), `ReceivePacket` makes exactly one `SendSegment` call, marked as
onion traffic, to the address `DeserializeIpv4ToInt (next_hop_address)` on the
node's port, and the envelope in the packet it passes has the onion id of the
received one, the inner layer as onion message and the body as `ProcessOnionBody`
leaves it. -/
theorem C9_per_hop_forward (self : SensorNode) (v : OnionValidator)
    (om : OnionManager) (sw : Serialization) (now : Nat) (chunk : Packet) (sender : Nat)
    (p : Packet)
    (hrecv : (RecvSegment self.toWsn_node chunk sender).packet = some p)
    (hid : (sw.GetData p.bytes).o_head.onionid = v.GetOnionSeq)
    (hpad : ∀ pad, (sw.GetData p.bytes).o_head.padding = some pad →
      (om.PeelOnion (sw.GetData p.bytes).o_head.onion_message).innerLayer.length
          ≤ (sw.GetData p.bytes).o_head.onion_message.length + pad.length
        ∧ (sw.GetData p.bytes).o_head.onion_message.length + pad.length < 2 ^ 31) :
    ∃ o_head : OnionHead,
      sendSegmentCalls (ReceivePacket self v om sw now chunk sender).events
          = [(DeserializeIpv4ToInt
                (om.PeelOnion (sw.GetData p.bytes).o_head.onion_message).nextHopIP,
              self.m_port,
              ⟨sw.SetData ⟨o_head, ProcessOnionBody self.m_sensorValue (sw.GetData p.bytes).o_body⟩,
                none⟩,
              true)]
        ∧ o_head.onionid = (sw.GetData p.bytes).o_head.onionid
        ∧ o_head.onion_message
            = (om.PeelOnion (sw.GetData p.bytes).o_head.onion_message).innerLayer := by
  have hhead : ∃ o_head : OnionHead,
      ProcessOnionHead om (sw.GetData p.bytes).o_head
          = some (DeserializeIpv4ToInt
              (om.PeelOnion (sw.GetData p.bytes).o_head.onion_message).nextHopIP, o_head)
        ∧ o_head.onionid = (sw.GetData p.bytes).o_head.onionid
        ∧ o_head.onion_message
            = (om.PeelOnion (sw.GetData p.bytes).o_head.onion_message).innerLayer := by
    cases hp : (sw.GetData p.bytes).o_head.padding with
    | none => exact ⟨_, ProcessOnionHead_unpadded om _ hp, rfl, rfl⟩
    | some pad =>
      exact ⟨_, ProcessOnionHead_padded om _ pad hp (hpad pad hp).1 (hpad pad hp).2, rfl, rfl⟩
  obtain ⟨o_head, hproc, h1, h2⟩ := hhead
  obtain ⟨q1, _, _, _⟩ := RecvSegment_events_quiet self.toWsn_node chunk sender now
  refine ⟨o_head, ?_, h1, h2⟩
  have hport := RecvSegment_port self.toWsn_node chunk sender
  unfold ReceivePacket
  simp only [hrecv, hid, if_true, hproc]
  split
  · simp only [sendSegmentCalls_append, q1, SendSegment_calls, hport]
    rfl
  · simp only [sendSegmentCalls_append, q1, SendSegment_calls, hport]
    rfl

/-- C9 at a concrete delivery: the envelope 8 with a six-byte onion and four bytes
of padding is forwarded to 10.1.0.2 (167837698), port 4242, with the four-byte
inner layer, six bytes of padding and the aggregate 10 + 5. -/
theorem C9_per_hop_forward_witness :
    (RecvSegment stubSensor.toWsn_node ⟨stubSetData goodEnvelope, none⟩ 167837698).packet
        = some ⟨stubSetData goodEnvelope, none⟩
      ∧ (stubWire.GetData (stubSetData goodEnvelope)).o_head.onionid = stubValidator.GetOnionSeq
      ∧ (∃ o_head : OnionHead,
          sendSegmentCalls (ReceivePacket stubSensor stubValidator stubManager stubWire 50
              ⟨stubSetData goodEnvelope, none⟩ 167837698).events
            = [(DeserializeIpv4ToInt (stubManager.PeelOnion
                  (stubWire.GetData (stubSetData goodEnvelope)).o_head.onion_message).nextHopIP,
                stubSensor.m_port,
                ⟨stubWire.SetData ⟨o_head, ProcessOnionBody stubSensor.m_sensorValue
                  (stubWire.GetData (stubSetData goodEnvelope)).o_body⟩, none⟩,
                true)]
          ∧ o_head.onionid = (stubWire.GetData (stubSetData goodEnvelope)).o_head.onionid
          ∧ o_head.onion_message = (stubManager.PeelOnion
              (stubWire.GetData (stubSetData goodEnvelope)).o_head.onion_message).innerLayer)
      ∧ sendSegmentCalls (ReceivePacket stubSensor stubValidator stubManager stubWire 50
            ⟨stubSetData goodEnvelope, none⟩ 167837698).events
          = [(167837698, 4242,
              ⟨stubSetData ⟨⟨8, [3, 4, 5, 6], some [48, 48, 48, 48, 48, 48]⟩, ⟨some 15⟩⟩, none⟩,
              true)] :=
  ⟨by decide, by decide,
    C9_per_hop_forward stubSensor stubValidator stubManager stubWire 50
      ⟨stubSetData goodEnvelope, none⟩ 167837698 ⟨stubSetData goodEnvelope, none⟩
      (by decide) (by decide) (by decide),
    by decide⟩

/-! ### Untagged chunks -/

/-- C11. Untagged receive bypass: for every chunk that carries no length tag and
every node state, with or without a reassembly in progress, `RecvSeg` returns
that chunk unchanged, at once, and leaves the node as it was: pending packet,
remaining byte count and receiving address are untouched; the only call made is
the socket close. -/
theorem C11_untagged_bypass (self : Wsn_node) (p : Packet) (sender : Nat)
    (h : p.segNum = none) :
    (RecvSeg self p sender).packet = some p
      ∧ (RecvSeg self p sender).node = self
      ∧ (RecvSeg self p sender).node.f_pendingPacket = self.f_pendingPacket
      ∧ (RecvSeg self p sender).node.f_segmentSize = self.f_segmentSize
      ∧ (RecvSeg self p sender).node.f_receivingAddress = self.f_receivingAddress
      ∧ (RecvSeg self p sender).events = [Event.close] := by
  rw [RecvSeg_untagged self p sender h]
  exact ⟨rfl, rfl, rfl, rfl, rfl, rfl⟩

/-- C11 at a concrete read: an untagged chunk from 10.1.0.2 reaches a node that
is reassembling a message from 10.1.0.3; the chunk is returned and the two
pending bytes, the count 3 and the address stay. -/
theorem C11_untagged_bypass_witness :
    (⟨[1, 2, 3], none⟩ : Packet).segNum = none
      ∧ (RecvSeg busyNode ⟨[1, 2, 3], none⟩ 167837698).packet = some ⟨[1, 2, 3], none⟩
      ∧ (RecvSeg busyNode ⟨[1, 2, 3], none⟩ 167837698).node = busyNode
      ∧ busyNode.f_pendingPacket = some ⟨[9, 9], some 5⟩ :=
  ⟨rfl,
    (C11_untagged_bypass busyNode ⟨[1, 2, 3], none⟩ 167837698 rfl).1,
    (C11_untagged_bypass busyNode ⟨[1, 2, 3], none⟩ 167837698 rfl).2.1,
    rfl⟩

/-! ### Padding bytes -/

/-- C12 as stated fails: a head whose padding is four zero bytes is left with a
padding of six bytes of value 48, the character `'0'`, none of them the byte 0;
and when the inner layer is longer than onion message plus padding the
construction of the padding throws and no new padding exists. -/
theorem C12_counterexample_padding_character :
    ProcessOnionHead stubManager zeroPaddedHead
        = some (167837698, ⟨8, [3, 4, 5, 6], some [48, 48, 48, 48, 48, 48]⟩)
      ∧ (∀ b ∈ [(48 : Byte), 48, 48, 48, 48, 48], b ≠ 0)
      ∧ paddedEnvelope.o_head.padding = some []
      ∧ ProcessOnionHead growingManager paddedEnvelope.o_head = none := by
  refine ⟨by decide, ?_, rfl, by decide⟩
  intro b hb
  simp only [List.mem_cons, List.mem_singleton, List.not_mem_nil, or_false, or_self] at hb
  subst hb
  decide

/-- C12 (amended). Padding is filled with the character `'0'`: for every head that
has a padding field and every peel result whose inner layer is no longer than the
old onion message plus the old padding (lengths within the `int` range of
`outer_layer_len`), the new padding consists of bytes that all equal 48, the
character `'0'`, and its length is exactly the old onion message length plus the
old padding length minus the length of the inner layer. -/
theorem C12_padding_filled (om : OnionManager) (h : OnionHead) (pad : List Byte)
    (hpad : h.padding = some pad)
    (hfit : (om.PeelOnion h.onion_message).innerLayer.length
              ≤ h.onion_message.length + pad.length)
    (hint : h.onion_message.length + pad.length < 2 ^ 31) :
    ∃ ip h1 pad1, ProcessOnionHead om h = some (ip, h1)
      ∧ h1.padding = some pad1
      ∧ (∀ b ∈ pad1, b = paddingChar)
      ∧ paddingChar.val = 48
      ∧ pad1.length = h.onion_message.length + pad.length
          - (om.PeelOnion h.onion_message).innerLayer.length := by
  refine ⟨_, _, _, ProcessOnionHead_padded om h pad hpad hfit hint, rfl, ?_, rfl, ?_⟩
  · intro b hb
    exact List.eq_of_mem_replicate hb
  · exact List.length_replicate _ _

/-- C12 at a concrete head: four zero bytes of padding and a six-byte onion,
peeled to four bytes, leave six bytes of `'0'`. -/
theorem C12_padding_filled_witness :
    zeroPaddedHead.padding = some [0, 0, 0, 0]
      ∧ (stubManager.PeelOnion zeroPaddedHead.onion_message).innerLayer.length
          ≤ zeroPaddedHead.onion_message.length + [(0 : Byte), 0, 0, 0].length
      ∧ zeroPaddedHead.onion_message.length + [(0 : Byte), 0, 0, 0].length < 2 ^ 31
      ∧ ∃ ip h1 pad1, ProcessOnionHead stubManager zeroPaddedHead = some (ip, h1)
          ∧ h1.padding = some pad1
          ∧ (∀ b ∈ pad1, b = paddingChar)
          ∧ paddingChar.val = 48
          ∧ pad1.length = zeroPaddedHead.onion_message.length + [(0 : Byte), 0, 0, 0].length
              - (stubManager.PeelOnion zeroPaddedHead.onion_message).innerLayer.length :=
  ⟨rfl, by decide, by decide,
    C12_padding_filled stubManager zeroPaddedHead [0, 0, 0, 0] rfl (by decide) (by decide)⟩

/-! ### Peer switch -/

theorem sub32_eq_toUInt32 (T n : Nat) :
    sub32 T (n % 2 ^ 32) = toUInt32 ((T : Int) - (n : Int)) := by
  unfold sub32 toUInt32
  omega

theorem sub32_exact (T n : Nat) (hT : T < 2 ^ 32) (hn : n ≤ T) :
    sub32 T (n % 2 ^ 32) = T - n := by
  unfold sub32
  omega

/-- A tagged chunk of a new sender that completes a message on its own: the
partial data are dropped, the chunk is returned and the buffer is cleared. -/
theorem RecvSeg_switch_last (self : Wsn_node) (q c : Packet) (B T : Nat)
    (hq : self.f_pendingPacket = some q) (hB : B ≠ self.f_receivingAddress)
    (hc : c.segNum = some T) (hz : sub32 T c.GetSize = 0) :
    RecvSeg self c B = ⟨cleared self, some ⟨c.bytes, some T⟩, [Event.close]⟩ := by
  simp [RecvSeg, hc, hq, hB, hz, cleared, Packet.AddAtEnd, Packet.Create]

/-- A tagged chunk of a new sender that does not complete a message: the partial
data are dropped and the buffer holds the chunk alone. -/
theorem RecvSeg_switch_more (self : Wsn_node) (q c : Packet) (B T : Nat)
    (hq : self.f_pendingPacket = some q) (hB : B ≠ self.f_receivingAddress)
    (hc : c.segNum = some T) (hz : sub32 T c.GetSize ≠ 0) :
    RecvSeg self c B
      = ⟨{ self with f_receivingAddress := B
                     f_pendingPacket := some ⟨c.bytes, some T⟩
                     f_segmentSize := sub32 T c.GetSize }, none, []⟩ := by
  simp [RecvSeg, hc, hq, hB, hz, Packet.AddAtEnd, Packet.Create]

/-- After a peer switch nothing depends on what was pending, on the count that
remained or on who the old sender was. -/
theorem RecvSeg_switch_forgets (self : Wsn_node) (q q1 c : Packet) (B T A1 rem1 : Nat)
    (hq : self.f_pendingPacket = some q) (hB : B ≠ self.f_receivingAddress)
    (hc : c.segNum = some T) (hA1 : B ≠ A1) :
    RecvSeg { self with f_pendingPacket := some q1
                        f_segmentSize := rem1
                        f_receivingAddress := A1 } c B
      = RecvSeg self c B := by
  by_cases hz : sub32 T c.GetSize = 0
  · rw [RecvSeg_switch_last self q c B T hq hB hc hz,
      RecvSeg_switch_last _ q1 c B T rfl hA1 hc hz]
    rfl
  · rw [RecvSeg_switch_more self q c B T hq hB hc hz,
      RecvSeg_switch_more _ q1 c B T rfl hA1 hc hz]

/-- C13 as stated fails when the chunk of the new sender completes a message on
its own: a node reassembling from 10.1.0.3 reads a three-byte chunk tagged 3 from
10.1.0.2 (167837698); the chunk is returned, and afterwards the receiving address
is the any-address, not 10.1.0.2, and no bytes are accumulated. -/
theorem C13_counterexample_switch_completes :
    busyNode.f_pendingPacket = some ⟨[9, 9], some 5⟩
      ∧ busyNode.f_receivingAddress = 167837699
      ∧ (RecvSeg busyNode ⟨[1, 2, 3], some 3⟩ 167837698).packet = some ⟨[1, 2, 3], some 3⟩
      ∧ (RecvSeg busyNode ⟨[1, 2, 3], some 3⟩ 167837698).node.f_receivingAddress = Ipv4Any
      ∧ (RecvSeg busyNode ⟨[1, 2, 3], some 3⟩ 167837698).node.f_receivingAddress ≠ 167837698
      ∧ (RecvSeg busyNode ⟨[1, 2, 3], some 3⟩ 167837698).node.f_pendingPacket = none := by
  decide

/-- C13 (amended). Peer switch resets the buffer: in every state with a
reassembly from a sender `A` in progress, a chunk `c` tagged `T` from a different
sender `B` makes `RecvSeg` drop the partial data and start over with `c`.  The
remaining byte count becomes `T - len(c)` as a 32-bit value (exactly `T - len(c)`
when `len(c) ≤ T`).  If it is not zero, `NULL` is returned and afterwards the
receiving address is `B`, the accumulated bytes are exactly `c` and the count is
that value.  If it is zero, `c` alone is returned as the complete message and the
buffer is cleared: no pending packet, the any-address as receiving address.  What
is returned and the node afterwards are the same whatever the partial data, the
old count and the old sender were, so is everything read later; and the message
that further chunks of `B` complete is made of `c` and these chunks only. -/
theorem C13_peer_switch (self : Wsn_node) (q c : Packet) (B T : Nat)
    (hq : self.f_pendingPacket = some q) (hB : B ≠ self.f_receivingAddress)
    (hc : c.segNum = some T) :
    sub32 T c.GetSize = toUInt32 ((T : Int) - (c.bytes.length : Int))
      ∧ (c.bytes.length ≤ T → T < 2 ^ 32 → sub32 T c.GetSize = T - c.bytes.length)
      ∧ (sub32 T c.GetSize ≠ 0 →
          (RecvSeg self c B).packet = none
          ∧ (RecvSeg self c B).node.f_receivingAddress = B
          ∧ (RecvSeg self c B).node.f_pendingPacket = some ⟨c.bytes, some T⟩
          ∧ (RecvSeg self c B).node.f_segmentSize = sub32 T c.GetSize)
      ∧ (sub32 T c.GetSize = 0 →
          (RecvSeg self c B).packet = some ⟨c.bytes, some T⟩
          ∧ (RecvSeg self c B).node = cleared self)
      ∧ (∀ (q1 : Packet) (A1 rem1 : Nat), B ≠ A1 → ∀ later,
          feedMany { self with f_pendingPacket := some q1
                               f_segmentSize := rem1
                               f_receivingAddress := A1 } ((c, B) :: later)
            = feedMany self ((c, B) :: later))
      ∧ (∀ cs : List Packet, cs ≠ [] → (∀ x ∈ cs, x.segNum ≠ none ∧ x.bytes ≠ []) →
          sub32 T c.GetSize = totalSize cs → totalSize cs < 2 ^ 32 →
          ∃ out, (feed self B (c :: cs)).2
              = none :: (List.replicate (cs.length - 1) none ++ [some out])
            ∧ out.bytes = c.bytes ++ allBytes cs) := by
  refine ⟨sub32_eq_toUInt32 T c.bytes.length, ?_, ?_, ?_, ?_, ?_⟩
  · intro hle hT
    exact sub32_exact T c.bytes.length hT hle
  · intro hz
    rw [RecvSeg_switch_more self q c B T hq hB hc hz]
    exact ⟨rfl, rfl, rfl, rfl⟩
  · intro hz
    rw [RecvSeg_switch_last self q c B T hq hB hc hz]
    exact ⟨rfl, rfl⟩
  · intro q1 A1 rem1 hA1 later
    simp only [feedMany, RecvSeg_switch_forgets self q q1 c B T A1 rem1 hq hB hc hA1]
  · intro cs hne hcs hrem hlt
    have hpos := totalSize_pos cs hne (fun x hx => (hcs x hx).2)
    have hz : sub32 T c.GetSize ≠ 0 := by omega
    obtain ⟨out, hfeed, hout⟩ :=
      feed_in_progress B cs
        { self with f_receivingAddress := B
                    f_pendingPacket := some ⟨c.bytes, some T⟩
                    f_segmentSize := sub32 T c.GetSize }
        ⟨c.bytes, some T⟩ hne hcs rfl rfl hrem hlt
    refine ⟨out, ?_, hout⟩
    simp only [feed, RecvSeg_switch_more self q c B T hq hB hc hz, hfeed]

/-- C13 at a concrete read: a node holding two bytes from 10.1.0.3 reads a
two-byte chunk tagged 5 from 10.1.0.2; it then holds that chunk alone, for
10.1.0.2, with three bytes remaining, and the next three bytes of 10.1.0.2
complete a message without the bytes of 10.1.0.3. -/
theorem C13_peer_switch_witness :
    busyNode.f_pendingPacket = some ⟨[9, 9], some 5⟩
      ∧ (167837698 : Nat) ≠ busyNode.f_receivingAddress
      ∧ (⟨[1, 2], some 5⟩ : Packet).segNum = some 5
      ∧ sub32 5 (⟨[1, 2], some 5⟩ : Packet).GetSize = 3
      ∧ (RecvSeg busyNode ⟨[1, 2], some 5⟩ 167837698).packet = none
      ∧ (RecvSeg busyNode ⟨[1, 2], some 5⟩ 167837698).node.f_receivingAddress = 167837698
      ∧ (RecvSeg busyNode ⟨[1, 2], some 5⟩ 167837698).node.f_pendingPacket
          = some ⟨[1, 2], some 5⟩
      ∧ (RecvSeg busyNode ⟨[1, 2], some 5⟩ 167837698).node.f_segmentSize = 3
      ∧ (feed busyNode 167837698 [⟨[1, 2], some 5⟩, ⟨[3, 4, 5], some 5⟩]).2
          = [none, some ⟨[1, 2, 3, 4, 5], some 5⟩] :=
  ⟨rfl, by decide, rfl, by decide,
    ((C13_peer_switch busyNode ⟨[9, 9], some 5⟩ ⟨[1, 2], some 5⟩ 167837698 5 rfl (by decide)
      rfl).2.2.1 (by decide)).1,
    by decide, by decide, by decide, by decide⟩

end PPWSim
